import Mathlib

/-!
# WeatherOpsPlanner — verification of the scheduling core

A shallow embedding of the scheduling engine of the WeatherOpsPlanner
repository (files `src/schedule.py` and `src/schedule_weather.py`), together
with theorems settling the specification claims.

Modelling conventions:
* The time axis is `ℚ`, measured in hours.  For `schedule.py` times are plain
  float-hours starting at 0, exactly as in the source.  For
  `schedule_weather.py` the Python `datetime` axis is mapped to rational hours
  counted from midnight of 2025-10-29 (the project's default start day), so
  `datetime(2025, 10, 29, 8, 0)` is the rational `8`.  Python `timedelta`
  arithmetic becomes rational arithmetic; `timedelta(hours=d)` is `d`,
  `.total_seconds() / 3600` is the identity.  Exact rational arithmetic stands
  in for IEEE floats / microsecond-resolution timedeltas.
* `t.replace(second=0, microsecond=0)` truncates a datetime to its whole
  minute, i.e. it floors to a multiple of one minute: `truncMin`.
* Mutation of `Activity` objects becomes explicit state passing on a
  `List Activity`; `self.activity_map[x]` / `.get(x)` becomes a lookup by id
  (`getAct`).  Activity ids are assumed unique, as presumed by the source's
  dict comprehension `{act.id: act for act in activities}` (a duplicate id
  would silently collapse entries); theorems that depend on it carry a
  `Nodup` hypothesis.
* Unbounded Python recursion / `while` loops take a fuel parameter; exhausted
  fuel, like a raised exception, yields `none` (or an error value carrying the
  Python error kind and, for the weather scheduler, the mutated object state
  at raise time, matching the fact that a Python exception leaves prior
  mutations in place).
-/

/- Lean's core marks the `Rat` arithmetic kernels `irreducible` (they have
native implementations); restore the default reducibility so that concrete
executions of the schedulers can be checked by `decide`. -/
set_option allowUnsafeReducibility true
attribute [semireducible] Rat.add Rat.sub Rat.mul Rat.inv Rat.blt

/-- Source: `datetime.replace(second=0, microsecond=0)`: truncate a time (in hours) to
its whole minute, i.e. floor to a multiple of `1/60` of an hour. -/
def truncMin (t : ℚ) : ℚ := ((⌊t * 60⌋ : ℤ) : ℚ) / 60

theorem truncMin_le (t : ℚ) : truncMin t ≤ t := by
  unfold truncMin
  rw [div_le_iff₀ (by norm_num : (0:ℚ) < 60)]
  exact Int.floor_le _

theorem truncMin_mono {s t : ℚ} (h : s ≤ t) : truncMin s ≤ truncMin t := by
  unfold truncMin
  have := Int.floor_mono (mul_le_mul_of_nonneg_right h (by norm_num : (0:ℚ) ≤ 60))
  have h2 : ((⌊s * 60⌋ : ℤ) : ℚ) ≤ ((⌊t * 60⌋ : ℤ) : ℚ) := by exact_mod_cast this
  exact div_le_div_of_nonneg_right h2 (by norm_num) |>.trans_eq rfl

/-- Python's `round` (banker's rounding, half-to-even), on the idealised
rational time axis. -/
def pyRound (q : ℚ) : ℤ :=
  if q - ⌊q⌋ < 1/2 then ⌊q⌋
  else if q - ⌊q⌋ > 1/2 then ⌊q⌋ + 1
  else if ⌊q⌋ % 2 = 0 then ⌊q⌋ else ⌊q⌋ + 1

/-- Stable insertion of `x` into a list ordered by `key`: `x` goes before the
first element whose key is not smaller, so equal keys keep their original
order. -/
def insertByKey {α : Type} (key : α → ℚ) (x : α) : List α → List α
  | [] => [x]
  | y :: ys => if key y < key x then y :: insertByKey key x ys else x :: y :: ys

/-- Stable sort by a rational key: the extensional behaviour of Python's
`sorted(l, key=key)` (Timsort is stable, and a stable sort is unique). -/
def sortByKey {α : Type} (key : α → ℚ) : List α → List α
  | [] => []
  | x :: xs => insertByKey key x (sortByKey key xs)

theorem mem_insertByKey {α : Type} (key : α → ℚ) (x : α) (l : List α) (y : α) :
    y ∈ insertByKey key x l ↔ y = x ∨ y ∈ l := by
  induction l with
  | nil => simp [insertByKey]
  | cons z zs ih =>
    unfold insertByKey
    by_cases h : key z < key x
    · simp only [if_pos h, List.mem_cons, ih]
      try tauto
    · simp only [if_neg h, List.mem_cons]
      try tauto

theorem mem_sortByKey {α : Type} (key : α → ℚ) (l : List α) (y : α) :
    y ∈ sortByKey key l ↔ y ∈ l := by
  induction l with
  | nil => simp [sortByKey]
  | cons z zs ih =>
    unfold sortByKey
    rw [mem_insertByKey, ih]
    simp

theorem pairwise_insertByKey {α : Type} (key : α → ℚ) (x : α) (l : List α)
    (h : l.Pairwise (fun u v => key u ≤ key v)) :
    (insertByKey key x l).Pairwise (fun u v => key u ≤ key v) := by
  induction l with
  | nil => simp [insertByKey]
  | cons z zs ih =>
    unfold insertByKey
    rcases List.pairwise_cons.mp h with ⟨hz, hzs⟩
    by_cases hlt : key z < key x
    · rw [if_pos hlt]
      refine List.pairwise_cons.mpr ⟨?_, ih hzs⟩
      intro u hu
      rcases (mem_insertByKey key x zs u).mp hu with rfl | hu
      · exact le_of_lt hlt
      · exact hz u hu
    · rw [if_neg hlt]
      refine List.pairwise_cons.mpr ⟨?_, h⟩
      intro u hu
      rcases List.mem_cons.mp hu with rfl | hu
      · exact le_of_not_lt hlt
      · exact (le_of_not_lt hlt).trans (hz u hu)

theorem pairwise_sortByKey {α : Type} (key : α → ℚ) (l : List α) :
    (sortByKey key l).Pairwise (fun u v => key u ≤ key v) := by
  induction l with
  | nil => simp [sortByKey]
  | cons z zs ih => exact pairwise_insertByKey key z (sortByKey key zs) ih

/-- In a list that is sorted (`Pairwise` nondecreasing in `key`), the first
element found by `find?` has the least key among all the elements satisfying
the predicate. -/
theorem find?_min_key {α : Type} (key : α → ℚ) (p : α → Bool) :
    ∀ (l : List α), l.Pairwise (fun u v => key u ≤ key v) →
      ∀ w, l.find? p = some w → ∀ v ∈ l, p v = true → key w ≤ key v := by
  intro l
  induction l with
  | nil => intro _ w hw; simp [List.find?] at hw
  | cons z zs ih =>
    intro hp w hw v hv hpv
    rcases List.pairwise_cons.mp hp with ⟨hz, hzs⟩
    by_cases hz' : p z = true
    · rw [List.find?_cons_of_pos _ hz'] at hw
      injection hw with hw
      subst hw
      rcases List.mem_cons.mp hv with rfl | hv
      · exact le_refl _
      · exact hz v hv
    · rw [List.find?_cons_of_neg _ (by simpa using hz')] at hw
      rcases List.mem_cons.mp hv with rfl | hv
      · exact absurd hpv hz'
      · exact ih hzs w hw v hv hpv

theorem find?_isSome_of_mem {α : Type} (p : α → Bool) {l : List α} {x : α}
    (hx : x ∈ l) (hp : p x = true) : ∃ w, l.find? p = some w ∧ p w = true := by
  induction l with
  | nil => cases hx
  | cons z zs ih =>
    by_cases hz : p z = true
    · exact ⟨z, List.find?_cons_of_pos _ hz, hz⟩
    · rcases List.mem_cons.mp hx with rfl | hx'
      · exact absurd hp hz
      · rcases ih hx' with ⟨w, hw, hpw⟩
        exact ⟨w, by rw [List.find?_cons_of_neg _ (by simpa using hz)]; exact hw, hpw⟩

namespace Schedule

/-! ## Embedding of `src/schedule.py` -/

/-- Source: `schedule.py`'s `Activity`.  `description`, `successors` and `group` play
no role in the scheduling algorithm and are omitted; the computed attributes
(`start`, `end`, `latest_start`, `latest_end`, `slack`, `is_critical`) start
out unset exactly as in `__init__`. -/
structure Activity where
  id : String
  predecessors : List String
  duration : ℚ
  max_tidal_current : Option ℚ := none
  min_tidal_level : Option ℚ := none
  start : Option ℚ := none
  end_ : Option ℚ := none
  latest_start : Option ℚ := none
  latest_end : Option ℚ := none
  slack : Option ℚ := none
  is_critical : Bool := false
  deriving DecidableEq, Repr

/-- One record of the `weather_data` time-indexed table. -/
structure WeatherSample where
  tidal_current : Option ℚ := none
  tidal_level : Option ℚ := none
  deriving DecidableEq, Repr

/-- The finite weather series: `weather_data`, a dict from integer time index
to a sample dict.  `[]` stands for both `None` and `{}` (both falsy). -/
abbrev WeatherData := List (ℤ × WeatherSample)

/-- Source: `weather_data.get(time_index, {})`. -/
def wlookup (wd : WeatherData) (i : ℤ) : Option WeatherSample :=
  (wd.find? (fun p => p.1 == i)).map (fun p => p.2)

/-- Source: `activity_map.get(pid)`: lookup by id (ids assumed unique, see header). -/
def getAct (st : List Activity) (pid : String) : Option Activity :=
  st.find? (fun a => a.id == pid)

/-- Mutation of the activity object with id `pid` (the Python dict and list
alias one object per id). -/
def updateAct (st : List Activity) (pid : String) (f : Activity → Activity) :
    List Activity :=
  st.map (fun a => if a.id == pid then f a else a)

/-- Source: `is_weather_ok(activity, time_index, weather_data)`: missing samples and
missing fields read as `0` via `.get(..., 0)` / `.get(..., {})`. -/
def is_weather_ok (a : Activity) (timeIndex : ℤ) (wd : WeatherData) : Bool :=
  let data := wlookup wd timeIndex
  let currentOk :=
    match a.max_tidal_current with
    | none => true
    | some m => decide (((data.bind (fun d => d.tidal_current)).getD 0) ≤ m)
  let levelOk :=
    match a.min_tidal_level with
    | none => true
    | some m => decide (((data.bind (fun d => d.tidal_level)).getD 0) ≥ m)
  currentOk && levelOk

/-- The `while not is_weather_ok(...)` delay loop of `compute_times`
(lines 70-71).  The source has no bound at all: fuel exhaustion (`none`)
models an execution that has not terminated within `fuel` iterations. -/
def weatherLoop (a : Activity) (wd : WeatherData) (iv : ℚ) :
    Nat → ℚ → Option ℚ
  | 0, _ => none
  | n + 1, t =>
    if is_weather_ok a (pyRound (t / iv)) wd then some t
    else weatherLoop a wd iv n (t + iv)

/-- The predecessor loop of `compute_times` (lines 60-65): for each
predecessor id, `activity_map.get` it, skip it when missing (`if pred:`),
otherwise recurse and fold its (post-recursion) `end` into `max_end`.
A `None` end after the recursive call would make Python's `max` raise
(`TypeError`), modelled as `none`. -/
def predsLoopAux (f : List Activity → String → Option (List Activity)) :
    List Activity → List String → ℚ → Option (List Activity × ℚ)
  | st, [], m => some (st, m)
  | st, pid :: rest, m =>
    match getAct st pid with
    | none => predsLoopAux f st rest m
    | some _ =>
      match f st pid with
      | none => none
      | some st1 =>
        match (getAct st1 pid).bind (fun p => p.end_) with
        | none => none
        | some pe => predsLoopAux f st1 rest (max m pe)

/-- Source: `compute_times(activity)` (lines 54-74), by id, with fuel for the
unbounded recursion.  An id not in the map cannot arise from the source's
call sites (which always pass existing objects) and is a no-op. -/
def compute_times (wd : WeatherData) (iv : ℚ) :
    Nat → List Activity → String → Option (List Activity)
  | 0, _, _ => none
  | n + 1, st, aid =>
    match getAct st aid with
    | none => some st
    | some a =>
      if a.start.isSome then some st
      else
        match (match a.predecessors with
               | [] => some (st, (0 : ℚ))
               | _ => predsLoopAux (compute_times wd iv n) st a.predecessors 0) with
        | none => none
        | some (st1, startBase) =>
          match (if wd.isEmpty then some startBase
                 else weatherLoop a wd iv n startBase) with
          | none => none
          | some s =>
            some (updateAct st1 aid
              (fun b => { b with start := some s, end_ := some (s + b.duration) }))

/-- The forward driver `for activity in activities: compute_times(activity)`. -/
def runForward (wd : WeatherData) (iv : ℚ) (fuel : Nat) :
    List Activity → List String → Option (List Activity)
  | st, [] => some st
  | st, aid :: rest =>
    match compute_times wd iv fuel st aid with
    | none => none
    | some st1 => runForward wd iv fuel st1 rest

/-- The `end` fields of all activities, `none` as soon as one is unset
(Python's `max` raises comparing `None`). -/
def allEnds : List Activity → Option (List ℚ)
  | [] => some []
  | a :: rest =>
    match a.end_, allEnds rest with
    | some e, some es => some (e :: es)
    | _, _ => none

/-- Source: `project_end = max(act.end for act in activities)` (line 80): `max` raises
on an empty sequence and on a `None` end (both modelled as `none`). -/
def projectEnd (st : List Activity) : Option ℚ :=
  match allEnds st with
  | none => none
  | some [] => none
  | some (e :: es) => some (es.foldl max e)

/-- Lines 81-83: initialise every `latest_end` to the project end and
`latest_start` accordingly. -/
def backwardInit (pe : ℚ) (st : List Activity) : List Activity :=
  st.map (fun a => { a with latest_end := some pe, latest_start := some (pe - a.duration) })

/-- Inner loop of the backward pass (lines 86-90): tighten each present
predecessor of the activity `aid` against `aid`'s current `latest_start`.
All the `latest_*` fields are set here (`backwardInit` ran just before), so
the `getD 0` defaults are never taken. -/
def tightenPreds (aid : String) : List Activity → List String → List Activity
  | st, [] => st
  | st, pid :: rest =>
    match getAct st pid with
    | none => tightenPreds aid st rest
    | some p =>
      let ls := ((getAct st aid).bind (fun b => b.latest_start)).getD 0
      let le := min (p.latest_end.getD 0) ls
      tightenPreds aid
        (updateAct st pid (fun b => { b with latest_end := some le, latest_start := some (le - b.duration) }))
        rest

/-- Outer loop of the backward pass: `for act in reversed(activities)`. -/
def tightenLoop : List Activity → List String → List Activity
  | st, [] => st
  | st, aid :: rest =>
    match getAct st aid with
    | none => tightenLoop st rest
    | some a => tightenLoop (tightenPreds aid st a.predecessors) rest

def tightenAll (st : List Activity) : List Activity :=
  tightenLoop st (st.map (fun a => a.id)).reverse

/-- Lines 93-95: `slack = latest_start - start`, `is_critical = slack == 0`
(exact equality; a `None` operand would raise in Python, modelled as a `none`
slack, on which `slack == 0` is `False` just as in Python). -/
def setSlack (a : Activity) : Activity :=
  let sl : Option ℚ :=
    match a.latest_start, a.start with
    | some ls, some s => some (ls - s)
    | _, _ => none
  { a with slack := sl, is_critical := decide (sl = some 0) }

/-- Source: `schedule_activities(activities, weather_data, analysis_interval)`
(lines 48-97): forward pass over the list, project end, backward pass,
slack/critical flags. -/
def schedule_activities (wd : WeatherData) (iv : ℚ) (fuel : Nat)
    (st : List Activity) : Option (List Activity) :=
  match runForward wd iv fuel st (st.map (fun a => a.id)) with
  | none => none
  | some st1 =>
    match projectEnd st1 with
    | none => none
    | some pe => some ((tightenAll (backwardInit pe st1)).map setSlack)

end Schedule

namespace ScheduleWeather

/-! ## Embedding of `src/schedule_weather.py` -/

/-- The value of `constraints.get('tide_window_required', False)`:
`generate_activity_list` stores either `False` or one of the strings
`'slack'` / `'slackhw'` (line 272). -/
inductive TideReq where
  | noTide
  | slack
  | slackhw
  deriving DecidableEq, Repr

/-- The Python error kinds the weather scheduler can raise, plus fuel
exhaustion (standing for an execution that did not terminate within the
allotted recursion depth). -/
inductive PyErr where
  | keyError
  | typeError
  | valueError
  | fuelOut
  deriving DecidableEq, Repr

/-- Source: `schedule_weather.py`'s `Activity`.  The constraint dict is split into its
two recognised keys; `weather_restrictions` is carried nowhere into the
scheduling logic of this file and is omitted.  `duration` is mutable (it is
overwritten for `until ID` activities). -/
structure WActivity where
  id : String
  name : String
  predecessors : List String
  duration : ℚ
  tide_window_required : TideReq := TideReq.noTide
  daylight_required : Bool := false
  start : Option ℚ := none
  end_ : Option ℚ := none
  successors : List String := []
  earliest_start : Option ℚ := none
  latest_end : Option ℚ := none
  float : Option ℚ := none
  duration_reference : Option String := none
  deriving DecidableEq, Repr

abbrev WState := List WActivity

/-- The scheduler's immutable environment: the window lists handed to
`Scheduler.__init__`, plus a fixed stand-in for the ambient `datetime.now()`
read (reachable only when nothing is scheduled at all). -/
structure Env where
  daylight_windows : List (ℚ × ℚ) := []
  hw_tide_windows : List (ℚ × ℚ) := []
  lw_tide_windows : List (ℚ × ℚ) := []
  now : ℚ := 0
  deriving DecidableEq, Repr

/-- Result of a stateful weather-scheduler operation: `.ok st` is a normal
return, `.error (e, st)` a raised Python exception of kind `e`; the state is
carried on errors too because a Python exception leaves all prior mutations
of the activity objects in place. -/
abbrev WRes := Except (PyErr × WState) WState

instance : DecidableEq WRes := fun x y =>
  match x, y with
  | Except.ok a, Except.ok b =>
    match decEq a b with
    | isTrue h => isTrue (by rw [h])
    | isFalse h => isFalse (fun hc => h (Except.ok.inj hc))
  | Except.error a, Except.error b =>
    match decEq a b with
    | isTrue h => isTrue (by rw [h])
    | isFalse h => isFalse (fun hc => h (Except.error.inj hc))
  | Except.ok _, Except.error _ => isFalse (fun hc => by cases hc)
  | Except.error _, Except.ok _ => isFalse (fun hc => by cases hc)

/-- Source: `self.activity_map[...]` / `.get(...)`: lookup by id. -/
def getWAct (st : WState) (pid : String) : Option WActivity :=
  st.find? (fun a => a.id == pid)

def updateWAct (st : WState) (pid : String) (f : WActivity → WActivity) : WState :=
  st.map (fun a => if a.id == pid then f a else a)

/-- Source: `datetime(2025, 10, 29, 8, 0)`, the hard-coded default project start
(line 108), on the rational hour axis anchored at midnight of that day. -/
def defaultProjectStart : ℚ := 8

/-- Source: `datetime.min` on the same axis (0001-01-01 is about 17.75 million hours
before the epoch; the exact figure is immaterial, it only feeds the always-true
`>= datetime.min` guards). -/
def datetimeMin : ℚ := -20000000

/-- Source: `window_center = w_start + (w_end - w_start) / 2`. -/
def windowCenter (w : ℚ × ℚ) : ℚ := w.1 + (w.2 - w.1) / 2

/-- The nested `overlaps_daylight(start)` helper (lines 44-46 and 73-75):
the candidate span `[start, start+d)` must strictly overlap some daylight
window. -/
def overlaps_daylight (env : Env) (d : ℚ) (start : ℚ) : Bool :=
  env.daylight_windows.any
    (fun dl => decide (0 < min dl.2 (start + d) - max dl.1 start))

/-- The window set selected by the tide requirement (lines 49-53 / 78-82). -/
def tideWindows (env : Env) (req : TideReq) : List (ℚ × ℚ) :=
  match req with
  | TideReq.noTide => []
  | TideReq.slackhw => env.hw_tide_windows
  | TideReq.slack => env.hw_tide_windows ++ env.lw_tide_windows

/-- Source: `Scheduler.find_aligned_start(activity, earliest_start)` (lines 39-65).
The tide loop returns the first centred candidate (windows sorted by centre)
that is at or after `earliest_start` and, when daylight is also required,
overlaps a daylight window; when the loop falls through, the daylight-only
search runs; the final fallback returns `earliest_start` unchanged. -/
def find_aligned_start (env : Env) (a : WActivity) (earliest_start : ℚ) : ℚ :=
  let d := a.duration
  let tideCand : Option ℚ :=
    match a.tide_window_required with
    | TideReq.noTide => none
    | req =>
      let ws := sortByKey windowCenter (tideWindows env req)
      (ws.find? (fun w =>
          decide (windowCenter w - d / 2 ≥ earliest_start) &&
          (!a.daylight_required || overlaps_daylight env d (windowCenter w - d / 2)))).map
        (fun w => windowCenter w - d / 2)
  match tideCand with
  | some t => t
  | none =>
    match (if a.daylight_required then
            env.daylight_windows.find?
              (fun dl => decide (dl.1 ≥ earliest_start) && decide (dl.2 - dl.1 ≥ d))
           else none) with
    | some dl => dl.1
    | none => earliest_start

/-- Source: `Scheduler.find_latest_aligned_start(activity, latest_end)` (lines 67-98).
Windows are scanned latest-ending first; each candidate is the window end
clipped to `latest_end` minus the duration, accepted if it stays inside the
window, above `datetime.min`, and at or before `latest_start`. -/
def find_latest_aligned_start (env : Env) (a : WActivity) (latest_end : ℚ) : ℚ :=
  let d := a.duration
  let latest_start := latest_end - d
  let tideCand : Option ℚ :=
    match a.tide_window_required with
    | TideReq.noTide => none
    | req =>
      let ws := sortByKey (fun w => -w.2) (tideWindows env req)
      (ws.find? (fun w =>
          decide (min w.2 latest_end - d ≥ w.1) &&
          decide (min w.2 latest_end - d ≥ datetimeMin) &&
          decide (min w.2 latest_end - d ≤ latest_start) &&
          (!a.daylight_required || overlaps_daylight env d (min w.2 latest_end - d)))).map
        (fun w => min w.2 latest_end - d)
  match tideCand with
  | some t => t
  | none =>
    match (if a.daylight_required then
            (sortByKey (fun w => -w.2) env.daylight_windows).find?
              (fun dl => decide (min dl.2 latest_end - d ≥ dl.1) &&
                decide (min dl.2 latest_end - d ≥ datetimeMin) &&
                decide (min dl.2 latest_end - d ≤ latest_start))
           else none) with
    | some dl => min dl.2 latest_end - d
    | none => latest_start

/-- Source: `max(self.activity_map[pid].end for pid in activity.predecessors)`
(line 106): a missing id raises `KeyError`; an unset end makes the `max`
comparison raise `TypeError` (the loop just before guarantees all ends are
set, so that branch is unreachable in runs that reach this line); an empty
generator cannot arise (the caller guards on `activity.predecessors`). -/
def maxEnds (st : WState) (preds : List String) : Except PyErr ℚ :=
  match preds.mapM (fun pid => getWAct st pid) with
  | none => Except.error PyErr.keyError
  | some acts =>
    match acts.mapM (fun p => p.end_) with
    | none => Except.error PyErr.typeError
    | some [] => Except.error PyErr.valueError
    | some (e :: es) => Except.ok (es.foldl max e)

/-- The predecessor loop of `compute_start_end_forward` (lines 102-105):
`self.activity_map[pred_id]` raises `KeyError` on a missing id; an
unscheduled predecessor (`end is None`) is recursed into. -/
def wPredsLoop (f : WState → String → WRes) : WState → List String → WRes
  | st, [] => Except.ok st
  | st, pid :: rest =>
    match getWAct st pid with
    | none => Except.error (PyErr.keyError, st)
    | some p =>
      if p.end_.isNone then
        match f st pid with
        | Except.error e => Except.error e
        | Except.ok st1 => wPredsLoop f st1 rest
      else wPredsLoop f st rest

/-- Source: `Scheduler.compute_start_end_forward(activity)` (lines 100-130), by id.
Note there is no memoisation guard: the body always recomputes and rewrites
`start`/`end`.  The final `replace(second=0, microsecond=0)` truncations are
applied at the writes (nothing happens in between). -/
def compute_start_end_forward (env : Env) : Nat → WState → String → WRes
  | 0, st, _ => Except.error (PyErr.fuelOut, st)
  | n + 1, st, aid =>
    match getWAct st aid with
    | none => Except.error (PyErr.keyError, st)
    | some a =>
      match (match a.predecessors with
             | [] => Except.ok (st,
                 match a.start with
                 | some s => s
                 | none => defaultProjectStart)
             | _ =>
               match wPredsLoop (compute_start_end_forward env n) st a.predecessors with
               | Except.error e => Except.error e
               | Except.ok st1 =>
                 match maxEnds st1 a.predecessors with
                 | Except.error e => Except.error (e, st1)
                 | Except.ok m => Except.ok (st1, m)) with
      | Except.error e => Except.error e
      | Except.ok (st1, es) =>
        let st2 := updateWAct st1 aid (fun b => { b with earliest_start := some es })
        match getWAct st2 aid with
        | none => Except.error (PyErr.keyError, st2)
        | some a2 =>
          match a2.duration_reference with
          | none =>
            let s := find_aligned_start env a2 es
            Except.ok (updateWAct st2 aid
              (fun b => { b with start := some (truncMin s),
                                 end_ := some (truncMin (s + b.duration)) }))
          | some refId =>
            match (match getWAct st2 refId with
                   | some r =>
                     if r.start.isNone then compute_start_end_forward env n st2 refId
                     else Except.ok st2
                   | none => Except.ok st2) with
            | Except.error e => Except.error e
            | Except.ok st3 =>
              match getWAct st3 aid with
              | none => Except.error (PyErr.keyError, st3)
              | some a3 =>
                let s := find_aligned_start env a3 es
                match getWAct st3 refId with
                | none =>
                  -- `ref_act` is `None`: `activity.end = ref_act.start` raises
                  -- AttributeError (subsumed under `typeError` here), with
                  -- `activity.start` already rewritten.
                  Except.error (PyErr.typeError,
                    updateWAct st3 aid (fun b => { b with start := some s }))
                | some r3 =>
                  match r3.start with
                  | none =>
                    -- `activity.end = None`; the comparison `end > start`
                    -- then raises TypeError.
                    Except.error (PyErr.typeError,
                      updateWAct st3 aid (fun b => { b with start := some s, end_ := none }))
                  | some refStart =>
                    let st4 := updateWAct st3 aid
                      (fun b => { b with start := some s, end_ := some refStart })
                    if refStart > s then
                      Except.ok (updateWAct st4 aid
                        (fun b => { b with duration := refStart - s,
                                           float := some 0,
                                           start := some (truncMin s),
                                           end_ := some (truncMin refStart) }))
                    else Except.error (PyErr.valueError, st4)

/-- Source: `Scheduler.compute_start_end_latest(activity, latest_end)` (lines
132-151).  With no explicit bound, the bound is the least successor start,
else the greatest scheduled end, else the ambient clock (`env.now`). -/
def compute_start_end_latest (env : Env) (st : WState) (aid : String)
    (latest_end : Option ℚ) : WRes :=
  match getWAct st aid with
  | none => Except.error (PyErr.keyError, st)
  | some a =>
    match (match latest_end with
           | some le => Except.ok le
           | none =>
             match a.successors.mapM (fun sid => getWAct st sid) with
             | none => Except.error (PyErr.keyError, st)
             | some succs =>
               match succs.filterMap (fun x => x.start) with
               | s :: ss => Except.ok (ss.foldl min s)
               | [] =>
                 match st.filterMap (fun x => x.end_) with
                 | e :: es => Except.ok (es.foldl max e)
                 | [] => Except.ok env.now) with
    | Except.error e => Except.error (e : PyErr × WState)
    | Except.ok le =>
      let st1 := updateWAct st aid (fun b => { b with latest_end := some le })
      let s := find_latest_aligned_start env a le
      Except.ok (updateWAct st1 aid
        (fun b => { b with start := some (truncMin s),
                           end_ := some (truncMin (s + b.duration)) }))

end ScheduleWeather

namespace ScheduleWeather

/-- Clearing of computed fields at the top of `schedule_around_target`
(lines 154-159). -/
def resetComputed (a : WActivity) : WActivity :=
  { a with start := none, end_ := none, earliest_start := none,
           latest_end := none, float := none }

/-- Source: `Scheduler.__init__`'s successor construction (lines 32-37): clear every
successor list, then for each activity append its id to each present
predecessor's successors, in list order. -/
def addSuccFor (aid : String) (st : WState) (pid : String) : WState :=
  match getWAct st pid with
  | none => st
  | some _ => updateWAct st pid (fun b => { b with successors := b.successors ++ [aid] })

def buildSuccessors (acts : WState) : WState :=
  let cleared := acts.map (fun a => { a with successors := ([] : List String) })
  (cleared.map (fun a => (a.id, a.predecessors))).foldl
    (fun st ap => ap.2.foldl (addSuccFor ap.1) st) cleared

/-- Source: `get_predecessor_chain` / `get_successor_chain` (lines 211-229): a DFS
with a shared visited set.  The result is discarded by the caller but the
traversal can raise `KeyError` (`self.activity_map[...]`).  The fuel only
bounds depth; any fuel beyond the graph size is enough. -/
def chainGo (selNext : WActivity → List String) (st : WState) :
    Nat → List String → List String → Except PyErr (List String)
  | 0, _, _ => Except.error PyErr.fuelOut
  | _ + 1, chain, [] => Except.ok chain
  | n + 1, chain, pid :: rest =>
    if pid ∈ chain then chainGo selNext st n chain rest
    else
      match getWAct st pid with
      | none => Except.error PyErr.keyError
      | some p =>
        match chainGo selNext st n (pid :: chain) (selNext p) with
        | Except.error e => Except.error e
        | Except.ok chain1 => chainGo selNext st n chain1 rest

/-- The loop `for pred_id in act.predecessors: schedule_chain_backward(pred,
act.start)` shared by `schedule_chain_backward`'s tail and its top-level call
(lines 171-176): `self.activity_map[pred_id]` raises on a missing id, and
`act.start` is re-read from the live object at each call. -/
def backLoopAux (f : WState → String → Option ℚ → WRes) (aid : String) :
    WState → List String → WRes
  | st, [] => Except.ok st
  | st, pid :: rest =>
    match getWAct st pid with
    | none => Except.error (PyErr.keyError, st)
    | some _ =>
      match f st pid ((getWAct st aid).bind (fun b => b.start)) with
      | Except.error e => Except.error e
      | Except.ok st1 => backLoopAux f aid st1 rest

/-- Source: `schedule_chain_backward(act, latest_end)` (lines 169-173). -/
def schedule_chain_backward (env : Env) : Nat → WState → String → Option ℚ → WRes
  | 0, st, _, _ => Except.error (PyErr.fuelOut, st)
  | n + 1, st, aid, le =>
    match compute_start_end_latest env st aid le with
    | Except.error e => Except.error e
    | Except.ok st1 =>
      match getWAct st1 aid with
      | none => Except.error (PyErr.keyError, st1)
      | some act => backLoopAux (schedule_chain_backward env n) aid st1 act.predecessors

/-- The loop `for succ_id in ...: schedule_chain_forward(succ)` shared by
`schedule_chain_forward`'s tail and its top-level call (lines 189-194). -/
def fwdSuccLoopAux (f : WState → String → WRes) : WState → List String → WRes
  | st, [] => Except.ok st
  | st, sid :: rest =>
    match getWAct st sid with
    | none => Except.error (PyErr.keyError, st)
    | some _ =>
      match f st sid with
      | Except.error e => Except.error e
      | Except.ok st1 => fwdSuccLoopAux f st1 rest

/-- Source: `schedule_chain_forward(act)` (lines 179-191).  The preamble duplicates
`compute_start_end_forward`'s predecessor handling (scheduling unscheduled
predecessors, then evaluating `max(...ends...)` into a local variable that is
never used; the effects and possible exceptions are kept).  The `else` branch
only binds that same unused local from already-computed values and has no
effect. -/
def schedule_chain_forward (env : Env) : Nat → WState → String → WRes
  | 0, st, _ => Except.error (PyErr.fuelOut, st)
  | n + 1, st, aid =>
    match getWAct st aid with
    | none => Except.error (PyErr.keyError, st)
    | some act =>
      match (match act.predecessors with
             | [] => Except.ok st
             | _ =>
               match wPredsLoop (compute_start_end_forward env n) st act.predecessors with
               | Except.error e => Except.error e
               | Except.ok st1 =>
                 match maxEnds st1 act.predecessors with
                 | Except.error e => Except.error (e, st1)
                 | Except.ok _ => Except.ok st1) with
      | Except.error e => Except.error e
      | Except.ok st1 =>
        match compute_start_end_forward env n st1 aid with
        | Except.error e => Except.error e
        | Except.ok st2 =>
          match getWAct st2 aid with
          | none => Except.error (PyErr.keyError, st2)
          | some act2 => fwdSuccLoopAux (schedule_chain_forward env n) st2 act2.successors

/-- Residual pass (lines 196-198): forward-compute every activity that still
has no start or end. -/
def residualFwd (f : WState → String → WRes) : WState → List String → WRes
  | st, [] => Except.ok st
  | st, aid :: rest =>
    match getWAct st aid with
    | none => Except.error (PyErr.keyError, st)
    | some a =>
      if a.start.isNone || a.end_.isNone then
        match f st aid with
        | Except.error e => Except.error e
        | Except.ok st1 => residualFwd f st1 rest
      else residualFwd f st rest

/-- Latest pass (lines 199-201): `compute_start_end_latest(act)` (no bound)
for every activity whose `latest_end` is still unset. -/
def residualLatest (env : Env) : WState → List String → WRes
  | st, [] => Except.ok st
  | st, aid :: rest =>
    match getWAct st aid with
    | none => Except.error (PyErr.keyError, st)
    | some a =>
      if a.latest_end.isNone then
        match compute_start_end_latest env st aid none with
        | Except.error e => Except.error e
        | Except.ok st1 => residualLatest env st1 rest
      else residualLatest env st rest

/-- Float pass (lines 202-207), in the source's branch order: activities with
both bookkeeping times and no duration reference get
`(latest_end - earliest_start) - duration`; `until ID` activities get 0. -/
def setFloats (st : WState) : WState :=
  st.map (fun a =>
    if a.earliest_start.isSome && a.latest_end.isSome && a.duration_reference.isNone then
      { a with float := some ((a.latest_end.getD 0 - a.earliest_start.getD 0) - a.duration) }
    else if a.duration_reference.isSome then { a with float := some 0 }
    else a)

/-- Source: `Scheduler.schedule_around_target(target_name, target_start_time)`
(lines 153-209): reset, anchor the target (found by `name`), walk the
predecessor chain backward and the successor chain forward, schedule the
residue forward, fill in the missing `latest_end`s, and compute floats. -/
def schedule_around_target (env : Env) (fuel : Nat) (st0 : WState)
    (target_name : String) (target_start_time : ℚ) : WRes :=
  let st := st0.map resetComputed
  match st.find? (fun a => a.name == target_name) with
  | none => Except.error (PyErr.valueError, st)
  | some tgt =>
    let stA := updateWAct st tgt.id
      (fun a => { a with start := some (truncMin target_start_time),
                         end_ := some (truncMin (truncMin target_start_time + a.duration)) })
    match chainGo (fun p => p.predecessors) stA fuel []
        (((getWAct stA tgt.id).map (fun a => a.predecessors)).getD []) with
    | Except.error e => Except.error (e, stA)
    | Except.ok _ =>
      match backLoopAux (schedule_chain_backward env fuel) tgt.id stA
          (((getWAct stA tgt.id).map (fun a => a.predecessors)).getD []) with
      | Except.error e => Except.error e
      | Except.ok stB =>
        match chainGo (fun p => p.successors) stB fuel []
            (((getWAct stB tgt.id).map (fun a => a.successors)).getD []) with
        | Except.error e => Except.error (e, stB)
        | Except.ok _ =>
          match fwdSuccLoopAux (schedule_chain_forward env fuel) stB
              (((getWAct stB tgt.id).map (fun a => a.successors)).getD []) with
          | Except.error e => Except.error e
          | Except.ok stF =>
            match residualFwd (compute_start_end_forward env fuel) stF
                (stF.map (fun a => a.id)) with
            | Except.error e => Except.error e
            | Except.ok stR =>
              match residualLatest env stR (stR.map (fun a => a.id)) with
              | Except.error e => Except.error e
              | Except.ok stL => Except.ok (setFloats stL)

end ScheduleWeather

namespace ScheduleWeather

/-! ## Basic lemmas about the weather scheduler's state operations -/

theorem updateWAct_id_eq (qid : String) (f : WActivity → WActivity)
    (hf : ∀ x, (f x).id = x.id) (x : WActivity) :
    (if x.id == qid then f x else x).id = x.id := by
  by_cases hx : x.id = qid <;> simp [hx, hf]

theorem comp_pred_update (pid qid : String) (f : WActivity → WActivity)
    (hf : ∀ x, (f x).id = x.id) :
    ((fun x : WActivity => x.id == pid) ∘ fun a => if a.id == qid then f a else a)
      = fun x : WActivity => x.id == pid := by
  funext x
  by_cases hx : x.id = qid <;> simp [Function.comp, hx, hf]

theorem getWAct_update_self (st : WState) (pid : String) (f : WActivity → WActivity)
    (hf : ∀ x, (f x).id = x.id) :
    getWAct (updateWAct st pid f) pid = (getWAct st pid).map f := by
  unfold getWAct updateWAct
  rw [List.find?_map, comp_pred_update pid pid f hf]
  cases hfind : st.find? (fun x => x.id == pid) with
  | none => rfl
  | some b =>
    have hb : (b.id == pid) = true := @List.find?_some _ (fun x : WActivity => x.id == pid) b st hfind
    simp [if_pos hb]
    exact fun hq => absurd (by simpa using hb) hq

theorem getWAct_update_other (st : WState) (pid qid : String) (f : WActivity → WActivity)
    (hf : ∀ x, (f x).id = x.id) (h : pid ≠ qid) :
    getWAct (updateWAct st qid f) pid = getWAct st pid := by
  unfold getWAct updateWAct
  rw [List.find?_map, comp_pred_update pid qid f hf]
  cases hfind : st.find? (fun x => x.id == pid) with
  | none => rfl
  | some b =>
    have hb0 : (b.id == pid) = true := @List.find?_some _ (fun x : WActivity => x.id == pid) b st hfind
    have hb : b.id = pid := by simpa using hb0
    have hbq : (b.id == qid) = false := by
      simp [hb]
      exact h
    simp [hbq]
    exact fun hq => absurd (hb.symm.trans hq) h

end ScheduleWeather

namespace ScheduleWeather

/-! ## The window alignment search: claims C3 and C4 -/

theorem tide_branch_spec (env : Env) (a : WActivity) (es : ℚ)
    (hd : a.daylight_required = false)
    (W : List (ℚ × ℚ)) (w0 : ℚ × ℚ) (hw0 : w0 ∈ W)
    (hq : es ≤ windowCenter w0 - a.duration / 2) :
    ∃ w, w ∈ W ∧ es ≤ windowCenter w - a.duration / 2 ∧
      ((sortByKey windowCenter W).find? (fun w =>
          decide (windowCenter w - a.duration / 2 ≥ es) &&
          (!a.daylight_required ||
            overlaps_daylight env a.duration (windowCenter w - a.duration / 2)))).map
        (fun w => windowCenter w - a.duration / 2)
        = some (windowCenter w - a.duration / 2) ∧
      ∀ v ∈ W, es ≤ windowCenter v - a.duration / 2 → windowCenter w ≤ windowCenter v := by
  have hp : ∀ w : ℚ × ℚ,
      (decide (windowCenter w - a.duration / 2 ≥ es) &&
        (!a.daylight_required ||
          overlaps_daylight env a.duration (windowCenter w - a.duration / 2)))
      = decide (es ≤ windowCenter w - a.duration / 2) := by
    intro w
    rw [hd]
    simp [ge_iff_le]
  have hw0s : w0 ∈ sortByKey windowCenter W := (mem_sortByKey _ _ _).mpr hw0
  rcases find?_isSome_of_mem
      (fun w : ℚ × ℚ =>
        decide (windowCenter w - a.duration / 2 ≥ es) &&
        (!a.daylight_required ||
          overlaps_daylight env a.duration (windowCenter w - a.duration / 2)))
      hw0s ((hp w0).trans (decide_eq_true hq)) with ⟨w, hwfind, hpw⟩
  refine ⟨w, ?_, ?_, ?_, ?_⟩
  · exact (mem_sortByKey _ _ _).mp (List.mem_of_find?_eq_some hwfind)
  · exact of_decide_eq_true ((hp w).symm.trans hpw)
  · rw [hwfind]
    rfl
  · intro v hv hvq
    exact find?_min_key windowCenter _ _ (pairwise_sortByKey windowCenter W) w hwfind v
      ((mem_sortByKey _ _ _).mpr hv) ((hp v).trans (decide_eq_true hvq))

/-- C3 — For a tide-constrained activity with no daylight requirement, the
alignment search returns the centre of the earliest qualifying slack window
minus half the duration, where a window qualifies exactly when its centred
start is at or after `not_before`. -/
theorem c3_tide_centering (env : Env) (a : WActivity) (es : ℚ)
    (ht : a.tide_window_required ≠ TideReq.noTide)
    (hd : a.daylight_required = false)
    (w0 : ℚ × ℚ) (hw0 : w0 ∈ tideWindows env a.tide_window_required)
    (hq : es ≤ windowCenter w0 - a.duration / 2) :
    ∃ w, w ∈ tideWindows env a.tide_window_required ∧
      es ≤ windowCenter w - a.duration / 2 ∧
      find_aligned_start env a es = windowCenter w - a.duration / 2 ∧
      ∀ v ∈ tideWindows env a.tide_window_required,
        es ≤ windowCenter v - a.duration / 2 → windowCenter w ≤ windowCenter v := by
  cases hreq : a.tide_window_required with
  | noTide => exact absurd hreq ht
  | slack =>
    rcases tide_branch_spec env a es hd (tideWindows env TideReq.slack) w0
      (by rwa [hreq] at hw0) hq with ⟨w, hwmem, hwq, hfind, hmin⟩
    refine ⟨w, hwmem, hwq, ?_, hmin⟩
    simp only [find_aligned_start, hreq]
    rw [hfind]
  | slackhw =>
    rcases tide_branch_spec env a es hd (tideWindows env TideReq.slackhw) w0
      (by rwa [hreq] at hw0) hq with ⟨w, hwmem, hwq, hfind, hmin⟩
    refine ⟨w, hwmem, hwq, ?_, hmin⟩
    simp only [find_aligned_start, hreq]
    rw [hfind]

/-- C4 — For an activity with only a daylight constraint, the alignment
search returns the start of the earliest daylight window that begins at or
after `not_before` and is long enough, and the whole span then fits inside
that window. -/
theorem c4_daylight_containment (env : Env) (a : WActivity) (es : ℚ)
    (ht : a.tide_window_required = TideReq.noTide) (hd : a.daylight_required = true)
    (hsorted : env.daylight_windows.Pairwise (fun u v => u.1 ≤ v.1))
    (w0 : ℚ × ℚ) (hw0 : w0 ∈ env.daylight_windows)
    (h1 : es ≤ w0.1) (h2 : a.duration ≤ w0.2 - w0.1) :
    ∃ w, w ∈ env.daylight_windows ∧ es ≤ w.1 ∧ a.duration ≤ w.2 - w.1 ∧
      find_aligned_start env a es = w.1 ∧ w.1 + a.duration ≤ w.2 ∧
      ∀ v ∈ env.daylight_windows, es ≤ v.1 → a.duration ≤ v.2 - v.1 → w.1 ≤ v.1 := by
  have hp : ∀ w : ℚ × ℚ, es ≤ w.1 → a.duration ≤ w.2 - w.1 →
      (decide (w.1 ≥ es) && decide (w.2 - w.1 ≥ a.duration)) = true := by
    intro w hA hB
    rw [Bool.and_eq_true]
    exact ⟨decide_eq_true hA, decide_eq_true hB⟩
  rcases find?_isSome_of_mem
      (fun w : ℚ × ℚ => decide (w.1 ≥ es) && decide (w.2 - w.1 ≥ a.duration)) hw0
      (hp w0 h1 h2) with ⟨w, hwfind, hpw⟩
  have hpw2 := hpw
  simp only [Bool.and_eq_true] at hpw2
  rcases hpw2 with ⟨hq1b, hq2b⟩
  have hq1 : es ≤ w.1 := of_decide_eq_true hq1b
  have hq2 : a.duration ≤ w.2 - w.1 := of_decide_eq_true hq2b
  refine ⟨w, List.mem_of_find?_eq_some hwfind, hq1, hq2, ?_, by linarith, ?_⟩
  · simp only [find_aligned_start, ht, hd]
    rw [hwfind]
    simp
  · intro v hv hv1 hv2
    exact find?_min_key (fun w => w.1) _ _ hsorted w hwfind v hv (hp v hv1 hv2)

end ScheduleWeather

namespace ScheduleWeather

theorem match_opt_le {α : Type} (o : Option α) (f : α → ℚ) (b bound : ℚ) :
    (∀ t, o = some t → f t ≤ bound) → b ≤ bound →
    (match o with | some t => f t | none => b) ≤ bound := by
  intro h1 h2
  cases o with
  | none => exact h2
  | some t => exact h1 t rfl

/-- Every branch of `find_latest_aligned_start` — tide candidate, daylight
candidate, or the unconstrained fallback — yields a start at or before
`latest_end - duration`. -/
theorem find_latest_aligned_start_le (env : Env) (a : WActivity) (le : ℚ) :
    find_latest_aligned_start env a le ≤ le - a.duration := by
  cases hreq : a.tide_window_required with
  | noTide =>
    simp only [find_latest_aligned_start, hreq]
    split
    · next dl hdl =>
      rcases Option.ite_none_right_eq_some.mp hdl with ⟨hd, hdl2⟩
      have hp := List.find?_some hdl2
      simp only [Bool.and_eq_true] at hp
      exact of_decide_eq_true hp.2
    · exact le_refl _
  | slack =>
    simp only [find_latest_aligned_start, hreq]
    split
    · next t heq =>
      rcases Option.map_eq_some'.mp heq with ⟨w, hwfind, hweq⟩
      have hp := List.find?_some hwfind
      simp only [Bool.and_eq_true] at hp
      rw [← hweq]
      exact of_decide_eq_true hp.1.2
    · next _ =>
      split
      · next dl hdl =>
        rcases Option.ite_none_right_eq_some.mp hdl with ⟨hd, hdl2⟩
        have hp := List.find?_some hdl2
        simp only [Bool.and_eq_true] at hp
        exact of_decide_eq_true hp.2
      · exact le_refl _
  | slackhw =>
    simp only [find_latest_aligned_start, hreq]
    split
    · next t heq =>
      rcases Option.map_eq_some'.mp heq with ⟨w, hwfind, hweq⟩
      have hp := List.find?_some hwfind
      simp only [Bool.and_eq_true] at hp
      rw [← hweq]
      exact of_decide_eq_true hp.1.2
    · next _ =>
      split
      · next dl hdl =>
        rcases Option.ite_none_right_eq_some.mp hdl with ⟨hd, hdl2⟩
        have hp := List.find?_some hdl2
        simp only [Bool.and_eq_true] at hp
        exact of_decide_eq_true hp.2
      · exact le_refl _

end ScheduleWeather

namespace ScheduleWeather

/-- C10 — The latest-time variant of the alignment search returns a start
`s` with `s ≤ latest_end - duration` on every branch (tide, daylight, and the
unconstrained fallback); consequently a backward-scheduled activity given an
explicit bound ends no later than that bound. -/
theorem c10_latest_alignment_bound :
    (∀ (env : Env) (a : WActivity) (le : ℚ),
        find_latest_aligned_start env a le ≤ le - a.duration) ∧
    (∀ (env : Env) (st : WState) (aid : String) (le : ℚ) (st' : WState),
        compute_start_end_latest env st aid (some le) = Except.ok st' →
        ((getWAct st' aid).bind (fun b => b.end_)).getD (le + 1) ≤ le) := by
  constructor
  · exact find_latest_aligned_start_le
  · intro env st aid le st' hok
    unfold compute_start_end_latest at hok
    cases hget : getWAct st aid with
    | none => rw [hget] at hok; exact absurd hok (by simp)
    | some a =>
      rw [hget] at hok
      simp only [] at hok
      have hst' : st' = updateWAct
          (updateWAct st aid (fun b => { b with latest_end := some le })) aid
          (fun b => { b with
            start := some (truncMin (find_latest_aligned_start env a le)),
            end_ := some (truncMin (find_latest_aligned_start env a le + b.duration)) }) := by
        cases hok
        rfl
      subst hst'
      have e2 := getWAct_update_self st aid
        (fun b => { b with latest_end := some le }) (fun x => rfl)
      have e1 := getWAct_update_self
        (updateWAct st aid (fun b => { b with latest_end := some le })) aid
        (fun b => { b with
          start := some (truncMin (find_latest_aligned_start env a le)),
          end_ := some (truncMin (find_latest_aligned_start env a le + b.duration)) })
        (fun x => rfl)
      rw [e1, e2, hget]
      show truncMin (find_latest_aligned_start env a le + a.duration) ≤ le
      have h1 : find_latest_aligned_start env a le + a.duration ≤ le := by
        have := find_latest_aligned_start_le env a le
        linarith
      exact (truncMin_le _).trans h1

end ScheduleWeather

namespace ScheduleWeather

/-! ## Concrete instances used by witnesses and counterexamples -/

def exEnvEmpty : Env := {}

def exEnvTide : Env := { hw_tide_windows := [(10, 12)] }

/-- A tide-constrained activity (any slack), 1 hour long, no daylight need. -/
def exActTide : WActivity :=
  { id := "T", name := "T", predecessors := [], duration := 1,
    tide_window_required := TideReq.slack }

def exEnvDay : Env := { daylight_windows := [(7, 18)] }

/-- A daylight-only activity, 2 hours long. -/
def exActDay : WActivity :=
  { id := "D", name := "D", predecessors := [], duration := 2,
    daylight_required := true }

/-- A daylight-requiring activity confronted with no daylight windows at all. -/
def exActDayNone : WActivity :=
  { id := "E", name := "E", predecessors := [], duration := 1,
    daylight_required := true }

/-- An activity naming a predecessor id that is not in the graph. -/
def exActGhost : WActivity :=
  { id := "G", name := "G", predecessors := ["ghost"], duration := 1 }

/-- An already-scheduled predecessor. -/
def exActP : WActivity :=
  { id := "P", name := "P", predecessors := [], duration := 1,
    start := some 8, end_ := some 9 }

/-- An activity whose `start` is already set (to 20:00) before the forward
pass is invoked on it. -/
def exActA20 : WActivity :=
  { id := "A", name := "A", predecessors := ["P"], duration := 1,
    start := some 20 }

/-- An activity carrying computed fields from a previous run. -/
def exActV : WActivity :=
  { id := "V", name := "V", predecessors := [], duration := 1,
    start := some 5, end_ := some 6 }

/-- The state produced by `compute_start_end_latest` on `exActTide` with
bound 11. -/
def c10run : WState :=
  match compute_start_end_latest exEnvTide [exActTide] "T" (some 11) with
  | Except.ok st => st
  | Except.error _ => []

theorem c3_witness :
    find_aligned_start exEnvTide exActTide 0 = 21 / 2 := by
  rcases c3_tide_centering exEnvTide exActTide 0 (by decide) rfl ((10 : ℚ), (12 : ℚ))
      (by decide) (by decide) with ⟨w, hmem, _, heq, _⟩
  have hw : w = ((10 : ℚ), (12 : ℚ)) := by
    simpa [tideWindows, exEnvTide, exActTide] using hmem
  rw [heq, hw]
  decide

theorem c4_witness :
    find_aligned_start exEnvDay exActDay 6 = 7 ∧ (7 : ℚ) + exActDay.duration ≤ 18 := by
  rcases c4_daylight_containment exEnvDay exActDay 6 rfl rfl (by simp [exEnvDay])
      ((7 : ℚ), (18 : ℚ)) (by decide) (by decide) (by decide)
    with ⟨w, hmem, _, _, heq, _, _⟩
  have hw : w = ((7 : ℚ), (18 : ℚ)) := by
    simpa [exEnvDay] using hmem
  constructor
  · rw [heq, hw]
  · decide

theorem c10_witness :
    find_latest_aligned_start exEnvTide exActTide 11 ≤ 11 - exActTide.duration ∧
    ((getWAct c10run "T").bind (fun b => b.end_)).getD 12 ≤ 11 :=
  ⟨c10_latest_alignment_bound.1 exEnvTide exActTide 11,
   c10_latest_alignment_bound.2 exEnvTide [exActTide] "T" 11 c10run (by decide)⟩

/-- C6 (counterexample) — an activity that requires daylight while the
environment has no daylight windows at all: no start time can satisfy the
declared constraint, yet `find_aligned_start` returns the bare
earliest-feasible bound, and its result type (a plain time) has no flag to
report the degradation; there is no best-effort opt-in anywhere. -/
theorem c6_counterexample :
    exActDayNone.daylight_required = true ∧
    exEnvEmpty.daylight_windows = [] ∧
    find_aligned_start exEnvEmpty exActDayNone 0 = 0 := by decide

/-- C6 (amended) — whenever no tide candidate and no daylight window
satisfies the code's own qualification tests, `find_aligned_start`
unconditionally returns `earliest_start`: the fallback is silent and
unconditional, with no flag and no best-effort mode. -/
theorem c6_amended_silent_fallback (env : Env) (a : WActivity) (es : ℚ)
    (ht : ∀ w ∈ tideWindows env a.tide_window_required,
      (decide (windowCenter w - a.duration / 2 ≥ es) &&
        (!a.daylight_required ||
          overlaps_daylight env a.duration (windowCenter w - a.duration / 2))) = false)
    (hd : ∀ w ∈ env.daylight_windows,
      (decide (w.1 ≥ es) && decide (w.2 - w.1 ≥ a.duration)) = false) :
    find_aligned_start env a es = es := by
  have hdfind : env.daylight_windows.find?
      (fun dl => decide (dl.1 ≥ es) && decide (dl.2 - dl.1 ≥ a.duration)) = none := by
    rw [List.find?_eq_none]
    intro x hx
    simp [hd x hx]
  have hday : (match (if a.daylight_required then
          env.daylight_windows.find?
            (fun dl => decide (dl.1 ≥ es) && decide (dl.2 - dl.1 ≥ a.duration))
         else none) with
       | some dl => dl.1
       | none => es) = es := by
    by_cases hb : a.daylight_required = true
    · rw [hb]
      simp only [if_true, hdfind]
    · rw [Bool.not_eq_true] at hb
      rw [hb]
      simp
  cases hreq : a.tide_window_required with
  | noTide =>
    simp only [find_aligned_start, hreq]
    exact hday
  | slack =>
    rw [hreq] at ht
    have h1 : (sortByKey windowCenter (tideWindows env TideReq.slack)).find?
        (fun w => decide (windowCenter w - a.duration / 2 ≥ es) &&
          (!a.daylight_required ||
            overlaps_daylight env a.duration (windowCenter w - a.duration / 2))) = none := by
      rw [List.find?_eq_none]
      intro x hx
      simp [ht x ((mem_sortByKey _ _ _).mp hx)]
    simp only [find_aligned_start, hreq, h1, Option.map_none']
    exact hday
  | slackhw =>
    rw [hreq] at ht
    have h1 : (sortByKey windowCenter (tideWindows env TideReq.slackhw)).find?
        (fun w => decide (windowCenter w - a.duration / 2 ≥ es) &&
          (!a.daylight_required ||
            overlaps_daylight env a.duration (windowCenter w - a.duration / 2))) = none := by
      rw [List.find?_eq_none]
      intro x hx
      simp [ht x ((mem_sortByKey _ _ _).mp hx)]
    simp only [find_aligned_start, hreq, h1, Option.map_none']
    exact hday

theorem c6_witness :
    find_aligned_start exEnvEmpty exActDayNone 5 = 5 :=
  c6_amended_silent_fallback exEnvEmpty exActDayNone 5
    (by intro w hw; simp [tideWindows, exActDayNone] at hw)
    (by intro w hw; simp [exEnvEmpty] at hw)

/-- C7 (counterexample) — in the weather scheduler, a predecessor id absent
from the graph makes the forward pass raise `KeyError`
(`self.activity_map[pred_id]`, line 103): the run aborts instead of treating
the predecessor as absent. -/
theorem c7_counterexample :
    compute_start_end_forward exEnvEmpty 5 [exActGhost] "G"
      = Except.error (PyErr.keyError, [exActGhost]) := by decide

/-- C8 (counterexample) — anchoring around a target name that is not in the
graph raises, but only after the initial reset has cleared every computed
field: `exActV` entered with `start = some 5` and leaves the failed call with
`start = none`, so the computed fields are not preserved. -/
theorem c8_counterexample :
    exActV.start = some 5 ∧
    schedule_around_target exEnvEmpty 5 [exActV] "missing" 8
      = Except.error (PyErr.valueError, [resetComputed exActV]) ∧
    (resetComputed exActV).start = none := by decide

/-- C8 (amended) — with an unknown target name `schedule_around_target`
raises a fatal error and produces no schedule, but every activity's computed
fields have already been reset to `None` by the failed call (they are not
left as they were before the call). -/
theorem c8_anchor_error_after_reset (env : Env) (fuel : Nat) (st0 : WState)
    (tname : String) (t0 : ℚ)
    (h : ∀ a ∈ st0, a.name ≠ tname) :
    schedule_around_target env fuel st0 tname t0
      = Except.error (PyErr.valueError, st0.map resetComputed) ∧
    ∀ a ∈ st0.map resetComputed,
      a.start = none ∧ a.end_ = none ∧ a.earliest_start = none ∧
        a.latest_end = none ∧ a.float = none := by
  have hfind : (st0.map resetComputed).find? (fun a => a.name == tname) = none := by
    rw [List.find?_eq_none]
    intro x hx
    rcases List.mem_map.mp hx with ⟨y, hy, rfl⟩
    simp [resetComputed]
    exact h y hy
  constructor
  · unfold schedule_around_target
    simp only [hfind]
  · intro a ha
    rcases List.mem_map.mp ha with ⟨y, hy, rfl⟩
    exact ⟨rfl, rfl, rfl, rfl, rfl⟩

theorem c8_witness :
    schedule_around_target exEnvEmpty 5 [exActV] "foo" 8
      = Except.error (PyErr.valueError, [resetComputed exActV]) :=
  (c8_anchor_error_after_reset exEnvEmpty 5 [exActV] "foo" 8 (by decide)).1

/-- C2 (counterexample) — `compute_start_end_forward` has no memoisation
guard: invoked on an activity whose `start` is already set (here 20:00), it
recomputes and rewrites `start` from its predecessor's end (9:00). -/
theorem c2_counterexample :
    (getWAct [exActP, exActA20] "A").map (fun b => b.start) = some (some 20) ∧
    ((compute_start_end_forward exEnvEmpty 5 [exActP, exActA20] "A").toOption.bind
      (fun st => (getWAct st "A").map (fun b => b.start))) = some (some 9) := by decide

end ScheduleWeather

namespace Schedule

/-! ## Claims about `schedule.py`'s forward pass -/

/-- C2 (amended) — `schedule.py`'s `compute_times` is memoised: if the
activity's `start` is already set the call returns immediately, leaving the
whole state untouched (so within one run each activity is computed at most
once).  The weather scheduler's forward pass has no such guard (see the
counterexample). -/
theorem c2_compute_times_memoized (wd : WeatherData) (iv : ℚ) (n : Nat)
    (st : List Activity) (aid : String) (a : Activity)
    (h : getAct st aid = some a) (hs : a.start.isSome = true) :
    compute_times wd iv (n + 1) st aid = some st := by
  unfold compute_times
  rw [h]
  simp [hs]

/-- An activity of the simple scheduler whose `start` is already set. -/
def exActMemo : Activity :=
  { id := "M", predecessors := [], duration := 1, start := some 3, end_ := some 4 }

theorem c2_witness : compute_times [] 1 1 [exActMemo] "M" = some [exActMemo] :=
  c2_compute_times_memoized [] 1 0 [exActMemo] "M" exActMemo (by decide) (by decide)

/-- C7 (amended) — in `schedule.py`'s forward pass, a predecessor id whose
lookup fails is silently skipped (`if pred:`): the predecessor loop behaves
exactly as if the missing id were not listed, the activity is scheduled from
its remaining predecessors, and no warning of any kind is recorded. -/
theorem c7_missing_pred_skipped
    (f : List Activity → String → Option (List Activity))
    (st : List Activity) (pid : String) (rest : List String) (m : ℚ)
    (h : getAct st pid = none) :
    predsLoopAux f st (pid :: rest) m = predsLoopAux f st rest m := by
  simp only [predsLoopAux, h]

/-- An activity whose only predecessor id is absent from the graph. -/
def exActHasGhost : Activity :=
  { id := "H", predecessors := ["ghost"], duration := 1 }

theorem c7_witness :
    predsLoopAux (compute_times [] 1 3) [exActHasGhost] ["ghost"] 0
      = predsLoopAux (compute_times [] 1 3) [exActHasGhost] [] 0 ∧
    compute_times [] 1 3 [exActHasGhost] "H"
      = some [{ exActHasGhost with start := some 0, end_ := some 1 }] :=
  ⟨c7_missing_pred_skipped (compute_times [] 1 3) [exActHasGhost] "ghost" [] 0 (by decide),
   by decide⟩

/-- The failing input of C5: an activity with a minimum-tidal-level limit of
1, and a weather series that only covers index 0 (with level 0).  Beyond the
series, `.get` defaults make the level read as 0 forever, so the check never
passes. -/
def exActLevel : Activity :=
  { id := "L", predecessors := [], duration := 1, min_tidal_level := some 1 }

def exWdLevel : WeatherData := [(0, { tidal_level := some 0 })]

theorem exActLevel_never_ok (i : ℤ) : is_weather_ok exActLevel i exWdLevel = false := by
  by_cases hi : i = 0
  · subst hi; decide
  · have hfind : exWdLevel.find? (fun p => p.1 == i) = none := by
      rw [List.find?_eq_none]
      intro x hx
      rcases List.mem_singleton.mp hx with rfl
      simp
      exact fun hc => hi hc.symm
    unfold is_weather_ok wlookup
    rw [hfind]
    decide

theorem exActLevel_loop_stuck :
    ∀ (n : Nat) (t : ℚ), weatherLoop exActLevel exWdLevel 1 n t = none := by
  intro n
  induction n with
  | zero => intro t; rfl
  | succ k ih =>
    intro t
    unfold weatherLoop
    rw [exActLevel_never_ok, if_neg Bool.false_ne_true]
    exact ih _

/-- C5 — the weather-delay loop of `schedule.py` has no horizon bound and no
error path: on this input (`min_tidal_level = 1`, a weather series covering
only index 0), `is_weather_ok` is false at every index, so the `while` loop
advances forever.  In the fuel model, `compute_times` fails to terminate for
every fuel value — the search neither finds a start nor reports an error. -/
theorem c5_weather_search_nonterminating :
    ∀ n : Nat, compute_times exWdLevel 1 n [exActLevel] "L" = none := by
  intro n
  cases n with
  | zero => rfl
  | succ k =>
    have hstep : compute_times exWdLevel 1 (k + 1) [exActLevel] "L"
        = (match weatherLoop exActLevel exWdLevel 1 k 0 with
           | none => none
           | some s => some (updateAct [exActLevel] "L"
               (fun b => { b with start := some s, end_ := some (s + b.duration) }))) := rfl
    rw [hstep, exActLevel_loop_stuck]

end Schedule

namespace ScheduleWeather

/-! ## C1 counterexample: the anchor-pinned weather run -/

/-- A single high-water slack window from 08:00 to 09:01 (its centre,
08:30:30, is not on a whole minute). -/
def exEnvC1 : Env := { hw_tide_windows := [(8, 9 + 1/60)] }

def exActW : WActivity :=
  { id := "W", name := "W", predecessors := [], duration := 2 }

def exActY : WActivity :=
  { id := "Y", name := "Y", predecessors := ["W"], duration := 1 }

/-- An `until Y` activity (derived duration, placeholder 0) requiring any
slack window. -/
def exActX : WActivity :=
  { id := "X", name := "X", predecessors := [], duration := 0,
    tide_window_required := TideReq.slack, duration_reference := some "Y" }

def exC1Graph : WState := buildSuccessors [exActW, exActY, exActX]

def exC1Run : WRes := schedule_around_target exEnvC1 30 exC1Graph "W" 8

def exC1Final : WState :=
  match exC1Run with
  | Except.ok st => st
  | Except.error _ => []

/-- Source: `end == start + duration`, checked over all computed fields. -/
def endsConsistent (st : WState) : Bool :=
  st.all (fun x => decide (x.end_ = x.start.map (fun s => s + x.duration)))

/-- C1 (counterexample) — a successful anchor-pinned run on which
`end == start + duration` fails: the derived-duration activity `X` is aligned
to the slack-window centre 09:30:30, truncated to 09:30, while its stored
duration `179/120` hours (1h29m30s) was computed from the untruncated start,
so `end - start = 3/2 ≠ 179/120 = duration`. -/
theorem c1_counterexample :
    exC1Run.isOk = true ∧
    ((exC1Final.find? (fun x => x.id == "X")).map
      (fun x => (x.start, x.end_, x.duration)))
      = some (some (19/2), some 11, 179/120) ∧
    endsConsistent exC1Final = false := by decide

end ScheduleWeather

namespace Schedule

/-! ## Write-once monotonicity and state lemmas for the simple scheduler -/

/-- Per-activity evolution during the forward pass: identity, precedence and
duration never change, and a `start`/`end` that is set stays set at the same
value (fields are written once). -/
def monoA (a b : Activity) : Prop :=
  b.id = a.id ∧ b.predecessors = a.predecessors ∧ b.duration = a.duration ∧
  (∀ s, a.start = some s → b.start = some s) ∧
  (∀ e, a.end_ = some e → b.end_ = some e)

/-- Pointwise (positional) evolution of the whole state. -/
def monoS (st st' : List Activity) : Prop := List.Forall₂ monoA st st'

theorem monoA_refl (a : Activity) : monoA a a :=
  ⟨rfl, rfl, rfl, fun _ h => h, fun _ h => h⟩

theorem monoA_trans {a b c : Activity} (h1 : monoA a b) (h2 : monoA b c) : monoA a c :=
  ⟨h2.1.trans h1.1, h2.2.1.trans h1.2.1, h2.2.2.1.trans h1.2.2.1,
   fun s hs => h2.2.2.2.1 s (h1.2.2.2.1 s hs),
   fun e he => h2.2.2.2.2 e (h1.2.2.2.2 e he)⟩

theorem monoS_refl (st : List Activity) : monoS st st :=
  List.forall₂_same.mpr (fun a _ => monoA_refl a)

theorem monoS_trans {s1 s2 s3 : List Activity} (h1 : monoS s1 s2) (h2 : monoS s2 s3) :
    monoS s1 s3 := by
  induction h1 generalizing s3 with
  | nil => cases h2; exact List.Forall₂.nil
  | cons hab h ih =>
    cases h2 with
    | cons hbc h2' => exact List.Forall₂.cons (monoA_trans hab hbc) (ih h2')

theorem monoS_ids {st st' : List Activity} (h : monoS st st') :
    st'.map (fun a => a.id) = st.map (fun a => a.id) := by
  induction h with
  | nil => rfl
  | cons hab _ ih => simp [ih, hab.1]

theorem forall₂_mem_left {α β : Type} {R : α → β → Prop} :
    ∀ {l1 : List α} {l2 : List β}, List.Forall₂ R l1 l2 → ∀ {a : α}, a ∈ l1 →
      ∃ b ∈ l2, R a b := by
  intro l1 l2 h
  induction h with
  | nil => intro a ha; cases ha
  | cons hab h ih =>
    intro a ha
    rcases List.mem_cons.mp ha with rfl | ha'
    · exact ⟨_, List.mem_cons_self _ _, hab⟩
    · rcases ih ha' with ⟨b, hb, hr⟩
      exact ⟨b, List.mem_cons_of_mem _ hb, hr⟩

theorem forall₂_mem_right {α β : Type} {R : α → β → Prop} :
    ∀ {l1 : List α} {l2 : List β}, List.Forall₂ R l1 l2 → ∀ {b : β}, b ∈ l2 →
      ∃ a ∈ l1, R a b := by
  intro l1 l2 h
  induction h with
  | nil => intro b hb; cases hb
  | cons hab h ih =>
    intro b hb
    rcases List.mem_cons.mp hb with rfl | hb'
    · exact ⟨_, List.mem_cons_self _ _, hab⟩
    · rcases ih hb' with ⟨a, ha, hr⟩
      exact ⟨a, List.mem_cons_of_mem _ ha, hr⟩

theorem getAct_mono {st st' : List Activity} (h : monoS st st') {pid : String}
    {p : Activity} (hp : getAct st pid = some p) :
    ∃ p', getAct st' pid = some p' ∧ monoA p p' := by
  induction h with
  | nil => simp [getAct, List.find?] at hp
  | cons hab h ih =>
    rename_i a b l1 l2
    by_cases hid : a.id = pid
    · rw [getAct, List.find?_cons_of_pos _ (by simpa using hid)] at hp
      injection hp with hp
      subst hp
      exact ⟨b, by rw [getAct, List.find?_cons_of_pos _ (by simp [hab.1, hid])], hab⟩
    · rw [getAct, List.find?_cons_of_neg _ (by simpa using hid)] at hp
      rcases ih hp with ⟨p', hp', hm⟩
      exact ⟨p', by rw [getAct, List.find?_cons_of_neg _ (by simp [hab.1, hid])]; exact hp', hm⟩

theorem getAct_none_mono {st st' : List Activity} (h : monoS st st') {pid : String}
    (hp : getAct st pid = none) : getAct st' pid = none := by
  induction h with
  | nil => rfl
  | cons hab h ih =>
    rename_i a b l1 l2
    by_cases hid : a.id = pid
    · rw [getAct, List.find?_cons_of_pos _ (by simpa using hid)] at hp
      cases hp
    · rw [getAct, List.find?_cons_of_neg _ (by simpa using hid)] at hp
      rw [getAct, List.find?_cons_of_neg _ (by simp [hab.1, hid])]
      exact ih hp

theorem getAct_id {st : List Activity} {pid : String} {p : Activity}
    (hp : getAct st pid = some p) : p.id = pid := by
  have := @List.find?_some _ (fun a : Activity => a.id == pid) p st hp
  simpa using this

theorem getAct_mem {st : List Activity} {pid : String} {p : Activity}
    (hp : getAct st pid = some p) : p ∈ st :=
  List.mem_of_find?_eq_some hp

theorem getAct_of_mem_nodup {st : List Activity}
    (hnd : (st.map (fun a => a.id)).Nodup) {a : Activity} (ha : a ∈ st) :
    getAct st a.id = some a := by
  induction st with
  | nil => cases ha
  | cons x xs ih =>
    rcases List.mem_cons.mp ha with rfl | ha'
    · rw [getAct, List.find?_cons_of_pos _ (by simp)]
    · have hx : x.id ≠ a.id := by
        intro hc
        have : a.id ∈ xs.map (fun a => a.id) := List.mem_map_of_mem _ ha'
        rw [List.map_cons, List.nodup_cons] at hnd
        exact hnd.1 (hc ▸ this)
      rw [getAct, List.find?_cons_of_neg _ (by simpa using hx)]
      exact ih (by rw [List.map_cons, List.nodup_cons] at hnd; exact hnd.2) ha'

theorem getAct_isSome_of_mem_ids {st : List Activity} {pid : String}
    (h : pid ∈ st.map (fun a => a.id)) : ∃ p, getAct st pid = some p := by
  rcases List.mem_map.mp h with ⟨a, ha, rfl⟩
  rcases find?_isSome_of_mem (fun x : Activity => x.id == a.id) ha (by simp) with ⟨w, hw, _⟩
  exact ⟨w, hw⟩

theorem monoS_map (st : List Activity) (g : Activity → Activity)
    (h : ∀ x ∈ st, monoA x (g x)) : monoS st (st.map g) := by
  induction st with
  | nil => exact List.Forall₂.nil
  | cons x xs ih =>
    exact List.Forall₂.cons (h x (List.mem_cons_self _ _))
      (ih (fun y hy => h y (List.mem_cons_of_mem _ hy)))

theorem updateAct_monoS (st : List Activity) (aid : String) (f : Activity → Activity)
    (h : ∀ x ∈ st, x.id = aid → monoA x (f x)) : monoS st (updateAct st aid f) := by
  apply monoS_map
  intro x hx
  by_cases hid : x.id = aid
  · simpa [updateAct, hid] using h x hx hid
  · simp only [show (x.id == aid) = false by simpa using hid, if_false]
    exact monoA_refl x

theorem comp_pred_updateAct (pid qid : String) (f : Activity → Activity)
    (hf : ∀ x, (f x).id = x.id) (x : Activity) :
    ((if x.id == qid then f x else x).id == pid) = (x.id == pid) := by
  by_cases hx : x.id = qid <;> simp [hx, hf]

theorem getAct_update_self (st : List Activity) (pid : String) (f : Activity → Activity)
    (hf : ∀ x, (f x).id = x.id) :
    getAct (updateAct st pid f) pid = (getAct st pid).map f := by
  unfold getAct updateAct
  rw [List.find?_map]
  have hp : ((fun x : Activity => x.id == pid) ∘ fun a => if a.id == pid then f a else a)
      = fun x : Activity => x.id == pid := by
    funext x
    exact comp_pred_updateAct pid pid f hf x
  rw [hp]
  cases hfind : st.find? (fun x => x.id == pid) with
  | none => rfl
  | some b =>
    have hb : (b.id == pid) = true := @List.find?_some _ (fun x : Activity => x.id == pid) b st hfind
    simp [if_pos hb]
    exact fun hq => absurd (by simpa using hb) hq

theorem getAct_update_other (st : List Activity) (pid qid : String) (f : Activity → Activity)
    (hf : ∀ x, (f x).id = x.id) (h : pid ≠ qid) :
    getAct (updateAct st qid f) pid = getAct st pid := by
  unfold getAct updateAct
  rw [List.find?_map]
  have hp : ((fun x : Activity => x.id == pid) ∘ fun a => if a.id == qid then f a else a)
      = fun x : Activity => x.id == pid := by
    funext x
    exact comp_pred_updateAct pid qid f hf x
  rw [hp]
  cases hfind : st.find? (fun x => x.id == pid) with
  | none => rfl
  | some b =>
    have hb0 : (b.id == pid) = true := @List.find?_some _ (fun x : Activity => x.id == pid) b st hfind
    have hb : b.id = pid := by simpa using hb0
    have hbq : (b.id == qid) = false := by
      simp [hb]
      exact h
    simp [hbq]
    exact fun hq => absurd (hb.symm.trans hq) h

theorem getAct_map_core (st : List Activity) (pid : String) (g : Activity → Activity)
    (hg : ∀ x, (g x).id = x.id) :
    getAct (st.map g) pid = (getAct st pid).map g := by
  unfold getAct
  rw [List.find?_map]
  have hp : ((fun x : Activity => x.id == pid) ∘ g) = fun x : Activity => x.id == pid := by
    funext x
    simp [Function.comp, hg]
  rw [hp]

end Schedule

namespace Schedule

/-! ## The forward-pass invariant -/

/-- The invariant maintained by `compute_times` over a run that started from
a cleared graph: an unscheduled activity has no `end`; a scheduled one has
`end = start + duration` and starts no earlier than the `end` of each of its
present predecessors (which are then scheduled too). -/
def SchedInv (st : List Activity) : Prop :=
  ∀ a ∈ st,
    (a.start = none → a.end_ = none) ∧
    (∀ s, a.start = some s →
      a.end_ = some (s + a.duration) ∧
      ∀ pid ∈ a.predecessors, ∀ p, getAct st pid = some p →
        ∃ pe, p.end_ = some pe ∧ pe ≤ s)

/-- The predecessor ids of `x` in the state (empty when `x` is absent). -/
def predsOf (st : List Activity) (x : String) : List String :=
  ((getAct st x).map (fun a => a.predecessors)).getD []

/-- Acyclicity witness: a rank function that strictly decreases along
predecessor edges. -/
def RankOk (r : String → Nat) (st : List Activity) : Prop :=
  ∀ x p, p ∈ predsOf st x → r p < r x

theorem predsOf_mono {st st' : List Activity} (h : monoS st st') (x : String) :
    predsOf st' x = predsOf st x := by
  unfold predsOf
  cases hget : getAct st x with
  | none => rw [getAct_none_mono h hget]
  | some p =>
    rcases getAct_mono h hget with ⟨p', hp', hm⟩
    rw [hp']
    simp [hm.2.1]

theorem RankOk_mono {r : String → Nat} {st st' : List Activity} (h : monoS st st')
    (hr : RankOk r st) : RankOk r st' := by
  intro x p hp
  rw [predsOf_mono h] at hp
  exact hr x p hp

theorem weatherLoop_ge {a : Activity} {wd : WeatherData} {iv : ℚ} (hiv : 0 ≤ iv) :
    ∀ {n : Nat} {t s : ℚ}, weatherLoop a wd iv n t = some s → t ≤ s := by
  intro n
  induction n with
  | zero => intro t s h; cases h
  | succ k ih =>
    intro t s h
    unfold weatherLoop at h
    by_cases hc : is_weather_ok a (pyRound (t / iv)) wd = true
    · rw [if_pos hc] at h
      injection h with h
      exact le_of_eq h
    · rw [if_neg hc] at h
      have := ih h
      linarith

/-- Soundness of the predecessor loop of `compute_times`, generic in the
recursive call `f` (instantiated with `compute_times` at one less fuel). -/
theorem predsLoop_sound (r : String → Nat)
    (f : List Activity → String → Option (List Activity))
    (hf : ∀ st aid st', f st aid = some st' →
      (st.map (fun a => a.id)).Nodup → SchedInv st → RankOk r st →
      monoS st st' ∧ SchedInv st' ∧
      (∀ q, r aid < r q → getAct st' q = getAct st q)) :
    ∀ (l : List String) (st : List Activity) (m : ℚ) (st' : List Activity) (m' : ℚ),
      predsLoopAux f st l m = some (st', m') →
      (st.map (fun a => a.id)).Nodup → SchedInv st → RankOk r st →
      monoS st st' ∧ SchedInv st' ∧ m ≤ m' ∧
      (∀ pid ∈ l, ∀ p, getAct st' pid = some p → ∃ pe, p.end_ = some pe ∧ pe ≤ m') ∧
      (∀ q, (∀ pid ∈ l, ¬ r q ≤ r pid) → getAct st' q = getAct st q) := by
  intro l
  induction l with
  | nil =>
    intro st m st' m' h hnd hinv hr
    unfold predsLoopAux at h
    injection h with h
    injection h with h1 h2
    subst h1
    subst h2
    refine ⟨monoS_refl st, hinv, le_refl m, ?_, fun q _ => rfl⟩
    intro pid hpid
    cases hpid
  | cons pid rest ih =>
    intro st m st' m' h hnd hinv hr
    rw [show predsLoopAux f st (pid :: rest) m =
        (match getAct st pid with
         | none => predsLoopAux f st rest m
         | some _ =>
           match f st pid with
           | none => none
           | some st1 =>
             match (getAct st1 pid).bind (fun p => p.end_) with
             | none => none
             | some pe => predsLoopAux f st1 rest (max m pe)) from rfl] at h
    split at h
    · next hget =>
      rcases ih st m st' m' h hnd hinv hr with ⟨hm, hi, hle, hbnd, hwr⟩
      refine ⟨hm, hi, hle, ?_, ?_⟩
      · intro pid' hpid' p hp
        rcases List.mem_cons.mp hpid' with rfl | hpid'
        · rw [getAct_none_mono hm hget] at hp
          cases hp
        · exact hbnd pid' hpid' p hp
      · intro q hq
        exact hwr q (fun pid' hpid' => hq pid' (List.mem_cons_of_mem _ hpid'))
    · next p0 hget =>
      split at h
      · next => cases h
      · next st1 hf1 =>
        split at h
        · next => cases h
        · next pe hbind =>
          rcases hf st pid st1 hf1 hnd hinv hr with ⟨hm1, hi1, hwr1⟩
          have hnd1 : (st1.map (fun a => a.id)).Nodup := by
            rw [monoS_ids hm1]; exact hnd
          have hr1 : RankOk r st1 := RankOk_mono hm1 hr
          rcases ih st1 (max m pe) st' m' h hnd1 hi1 hr1 with ⟨hm2, hi2, hle2, hbnd2, hwr2⟩
          rcases Option.bind_eq_some.mp hbind with ⟨p1, hp1, hp1e⟩
          refine ⟨monoS_trans hm1 hm2, hi2, le_trans (le_max_left m pe) hle2, ?_, ?_⟩
          · intro pid' hpid' p hp
            rcases List.mem_cons.mp hpid' with rfl | hpid'
            · rcases getAct_mono hm2 hp1 with ⟨p', hp', hmp⟩
              rw [hp] at hp'
              injection hp' with hp'
              subst hp'
              exact ⟨pe, hmp.2.2.2.2 pe hp1e, le_trans (le_max_right m pe) hle2⟩
            · exact hbnd2 pid' hpid' p hp
          · intro q hq
            rw [hwr2 q (fun pid' hpid' => hq pid' (List.mem_cons_of_mem _ hpid'))]
            refine hwr1 q ?_
            have := hq pid (List.mem_cons_self _ _)
            omega

end Schedule

namespace Schedule

/-- Soundness of `compute_times` on acyclic graphs: it only sets fields
(write-once monotonicity), it preserves the scheduling invariant, it leaves
the target scheduled, and it writes nothing at ranks above the target's. -/
theorem compute_times_sound (wd : WeatherData) (iv : ℚ) (hiv : 0 ≤ iv) (r : String → Nat) :
    ∀ (n : Nat) (st : List Activity) (aid : String) (st' : List Activity),
      compute_times wd iv n st aid = some st' →
      (st.map (fun a => a.id)).Nodup → SchedInv st → RankOk r st →
      monoS st st' ∧ SchedInv st' ∧
      (∀ a, getAct st aid = some a → ∃ b, getAct st' aid = some b ∧ b.start.isSome = true) ∧
      (∀ q, r aid < r q → getAct st' q = getAct st q) := by
  intro n
  induction n with
  | zero => intro st aid st' h _ _ _; cases h
  | succ k ih =>
    intro st aid st' h hnd hinv hr
    unfold compute_times at h
    split at h
    · next hget =>
      injection h with h
      subst h
      refine ⟨monoS_refl st, hinv, ?_, fun q _ => rfl⟩
      intro a ha
      rw [hget] at ha
      cases ha
    · next a hget =>
      split at h
      · next hstart =>
        injection h with h
        subst h
        refine ⟨monoS_refl st, hinv, ?_, fun q _ => rfl⟩
        intro a0 ha0
        exact ⟨a, hget, hstart⟩
      · next hstart =>
        have hstart' : a.start = none := by
          cases hs : a.start with
          | none => rfl
          | some v => rw [hs] at hstart; simp at hstart
        have hapreds : predsOf st aid = a.predecessors := by
          unfold predsOf
          rw [hget]
          rfl
        split at h
        · next => cases h
        · next st1 sb hpl =>
          split at h
          · next => cases h
          · next s hw =>
            injection h with h
            subst h
            have hf3 : ∀ st0 aid0 st0', compute_times wd iv k st0 aid0 = some st0' →
                (st0.map (fun a => a.id)).Nodup → SchedInv st0 → RankOk r st0 →
                monoS st0 st0' ∧ SchedInv st0' ∧
                (∀ q, r aid0 < r q → getAct st0' q = getAct st0 q) := by
              intro st0 aid0 st0' hh hnd0 hinv0 hr0
              rcases ih st0 aid0 st0' hh hnd0 hinv0 hr0 with ⟨x1, x2, _, x4⟩
              exact ⟨x1, x2, x4⟩
            have hnotaid : ∀ pid ∈ a.predecessors, ¬ r aid ≤ r pid := by
              intro pid hpid
              have := hr aid pid (by rw [hapreds]; exact hpid)
              omega
            have hpreds : monoS st st1 ∧ SchedInv st1 ∧
                (∀ pid ∈ a.predecessors, ∀ p, getAct st1 pid = some p →
                  ∃ pe, p.end_ = some pe ∧ pe ≤ sb) ∧
                getAct st1 aid = some a ∧
                (∀ q, r aid < r q → getAct st1 q = getAct st q) := by
              revert hpl
              cases hp : a.predecessors with
              | nil =>
                intro hpl
                injection hpl with hpl
                injection hpl with h1 h2
                subst h1
                subst h2
                refine ⟨monoS_refl st, hinv, ?_, hget, fun q _ => rfl⟩
                intro pid hpid
                cases hpid
              | cons q0 qs =>
                intro hpl
                rcases predsLoop_sound r (compute_times wd iv k) hf3 (q0 :: qs) st 0 st1 sb
                    hpl hnd hinv hr with ⟨hm1, hi1, _, hbnd1, hwr1⟩
                have hunch : getAct st1 aid = getAct st aid := by
                  refine hwr1 aid ?_
                  rw [← hp]
                  exact hnotaid
                refine ⟨hm1, hi1, hbnd1, by rw [hunch]; exact hget, ?_⟩
                intro q hq
                refine hwr1 q ?_
                rw [← hp]
                intro pid hpid
                have := hr aid pid (by rw [hapreds]; exact hpid)
                omega
            rcases hpreds with ⟨hm1, hi1, hbnd1, ha1, hwr1⟩
            have hsb_le_s : sb ≤ s := by
              by_cases hwde : wd.isEmpty = true
              · rw [if_pos hwde] at hw
                injection hw with hw
                exact le_of_eq hw
              · rw [if_neg hwde] at hw
                exact weatherLoop_ge hiv hw
            have hnd1 : (st1.map (fun a => a.id)).Nodup := by
              rw [monoS_ids hm1]
              exact hnd
            have haend : a.end_ = none := (hinv a (getAct_mem hget)).1 hstart'
            have ha1end : a.end_ = none := haend
            have hgid : ∀ x : Activity,
                ((fun b : Activity =>
                  { b with start := some s, end_ := some (s + b.duration) }) x).id
                  = x.id := fun x => rfl
            have hxa : ∀ x ∈ st1, x.id = aid → x = a := by
              intro x hx hxid
              have := getAct_of_mem_nodup hnd1 hx
              rw [hxid, ha1] at this
              injection this with e
              exact e.symm
            have hup : monoS st1 (updateAct st1 aid
                (fun b => { b with start := some s, end_ := some (s + b.duration) })) := by
              apply updateAct_monoS
              intro x hx hxid
              have hxa' := hxa x hx hxid
              subst hxa'
              refine ⟨rfl, rfl, rfl, ?_, ?_⟩
              · intro s0 hs0
                rw [hstart'] at hs0
                cases hs0
              · intro e0 he0
                rw [(hi1 x (getAct_mem ha1)).1 ?_] at he0
                · cases he0
                · exact hstart'
            have hgetup : getAct (updateAct st1 aid
                (fun b => { b with start := some s, end_ := some (s + b.duration) })) aid
                = some { a with start := some s, end_ := some (s + a.duration) } := by
              rw [getAct_update_self st1 aid _ hgid, ha1]
              rfl
            have hother : ∀ q, q ≠ aid → getAct (updateAct st1 aid
                (fun b => { b with start := some s, end_ := some (s + b.duration) })) q
                = getAct st1 q := by
              intro q hq
              exact getAct_update_other st1 q aid _ hgid hq
            refine ⟨monoS_trans hm1 hup, ?_, ?_, ?_⟩
            · -- SchedInv of the updated state
              intro b' hb'
              rcases List.mem_map.mp hb' with ⟨x, hx, hbx⟩
              by_cases hxid : x.id = aid
              · have hxa' := hxa x hx hxid
                subst hxa'
                rw [show (x.id == aid) = true by simpa using hxid] at hbx
                subst hbx
                constructor
                · intro hc
                  cases hc
                · intro s0 hs0
                  injection hs0 with hs0
                  subst hs0
                  refine ⟨rfl, ?_⟩
                  intro pid hpid p hp
                  have hpir : r pid < r aid := hr aid pid (by rw [hapreds]; exact hpid)
                  have hpidne : pid ≠ aid := by
                    intro e
                    rw [e] at hpir
                    omega
                  rw [hother pid hpidne] at hp
                  rcases hbnd1 pid hpid p hp with ⟨pe, hpe, hpele⟩
                  exact ⟨pe, hpe, le_trans hpele hsb_le_s⟩
              · rw [show (x.id == aid) = false by simpa using hxid] at hbx
                subst hbx
                constructor
                · exact (hi1 x hx).1
                · intro s0 hs0
                  rcases (hi1 x hx).2 s0 hs0 with ⟨hend, hpredsx⟩
                  refine ⟨hend, ?_⟩
                  intro pid hpid p hp
                  by_cases hpaid : pid = aid
                  · subst hpaid
                    rcases hpredsx pid hpid a ha1 with ⟨pe, hpe, _⟩
                    rw [ha1end] at hpe
                    cases hpe
                  · rw [hother pid hpaid] at hp
                    exact hpredsx pid hpid p hp
            · intro a0 ha0
              rw [hget] at ha0
              injection ha0 with e
              subst e
              exact ⟨_, hgetup, rfl⟩
            · intro q hq
              have hqne : q ≠ aid := by
                intro e
                rw [e] at hq
                omega
              rw [hother q hqne]
              exact hwr1 q hq

end Schedule

namespace Schedule

theorem SchedInv_of_fresh (st : List Activity)
    (hfresh : ∀ a ∈ st, a.start = none ∧ a.end_ = none) : SchedInv st := by
  intro a ha
  refine ⟨fun _ => (hfresh a ha).2, ?_⟩
  intro s hs
  rw [(hfresh a ha).1] at hs
  cases hs

/-- Soundness of the forward driver: monotone, invariant-preserving, and it
leaves every activity whose id it visited scheduled. -/
theorem runForward_sound (wd : WeatherData) (iv : ℚ) (hiv : 0 ≤ iv) (r : String → Nat)
    (fuel : Nat) :
    ∀ (l : List String) (st st' : List Activity),
      runForward wd iv fuel st l = some st' →
      (st.map (fun a => a.id)).Nodup → SchedInv st → RankOk r st →
      monoS st st' ∧ SchedInv st' ∧
      (∀ aid ∈ l, ∀ a, getAct st aid = some a →
        ∃ b, getAct st' aid = some b ∧ b.start.isSome = true) := by
  intro l
  induction l with
  | nil =>
    intro st st' h hnd hinv hr
    injection h with h
    subst h
    refine ⟨monoS_refl st, hinv, ?_⟩
    intro aid haid
    cases haid
  | cons aid rest ih =>
    intro st st' h hnd hinv hr
    unfold runForward at h
    split at h
    · next => cases h
    · next st1 hct =>
      rcases compute_times_sound wd iv hiv r fuel st aid st1 hct hnd hinv hr
        with ⟨hm1, hi1, hsch, _⟩
      have hnd1 : (st1.map (fun a => a.id)).Nodup := by
        rw [monoS_ids hm1]; exact hnd
      have hr1 : RankOk r st1 := RankOk_mono hm1 hr
      rcases ih st1 st' h hnd1 hi1 hr1 with ⟨hm2, hi2, hsch2⟩
      refine ⟨monoS_trans hm1 hm2, hi2, ?_⟩
      intro aid' haid' a ha
      rcases List.mem_cons.mp haid' with rfl | haid'
      · rcases hsch a ha with ⟨b, hb, hbs⟩
        rcases getAct_mono hm2 hb with ⟨b', hb', hmb⟩
        refine ⟨b', hb', ?_⟩
        cases hbs0 : b.start with
        | none => rw [hbs0] at hbs; simp at hbs
        | some v =>
          rw [hmb.2.2.2.1 v hbs0]
          rfl
      · rcases getAct_mono hm1 ha with ⟨a1, ha1, _⟩
        exact hsch2 aid' haid' a1 ha1

/-! ## The backward pass only touches the latest-time bookkeeping -/

/-- The fields the backward pass never changes. -/
def coreEq (x y : Activity) : Prop :=
  y.id = x.id ∧ y.predecessors = x.predecessors ∧ y.duration = x.duration ∧
  y.start = x.start ∧ y.end_ = x.end_

def coreS (st st' : List Activity) : Prop := List.Forall₂ coreEq st st'

theorem coreEq_refl (x : Activity) : coreEq x x := ⟨rfl, rfl, rfl, rfl, rfl⟩

theorem coreEq_trans {x y z : Activity} (h1 : coreEq x y) (h2 : coreEq y z) : coreEq x z :=
  ⟨h2.1.trans h1.1, h2.2.1.trans h1.2.1, h2.2.2.1.trans h1.2.2.1,
   h2.2.2.2.1.trans h1.2.2.2.1, h2.2.2.2.2.trans h1.2.2.2.2⟩

theorem coreS_refl (st : List Activity) : coreS st st :=
  List.forall₂_same.mpr (fun a _ => coreEq_refl a)

theorem coreS_trans {s1 s2 s3 : List Activity} (h1 : coreS s1 s2) (h2 : coreS s2 s3) :
    coreS s1 s3 := by
  induction h1 generalizing s3 with
  | nil => cases h2; exact List.Forall₂.nil
  | cons hab h ih =>
    cases h2 with
    | cons hbc h2' => exact List.Forall₂.cons (coreEq_trans hab hbc) (ih h2')

theorem coreS_ids {st st' : List Activity} (h : coreS st st') :
    st'.map (fun a => a.id) = st.map (fun a => a.id) := by
  induction h with
  | nil => rfl
  | cons hab _ ih => simp [ih, hab.1]

theorem coreS_map (st : List Activity) (g : Activity → Activity)
    (h : ∀ x ∈ st, coreEq x (g x)) : coreS st (st.map g) := by
  induction st with
  | nil => exact List.Forall₂.nil
  | cons x xs ih =>
    exact List.Forall₂.cons (h x (List.mem_cons_self _ _))
      (ih (fun y hy => h y (List.mem_cons_of_mem _ hy)))

theorem coreS_updateAct (st : List Activity) (pid : String) (f : Activity → Activity)
    (hf : ∀ x, coreEq x (f x)) : coreS st (updateAct st pid f) := by
  apply coreS_map
  intro x _
  by_cases hx : x.id = pid
  · simpa [updateAct, hx] using hf x
  · simp only [show (x.id == pid) = false by simpa using hx, if_false]
    exact coreEq_refl x

theorem coreS_backwardInit (pe : ℚ) (st : List Activity) :
    coreS st (backwardInit pe st) :=
  coreS_map st _ (fun x _ => ⟨rfl, rfl, rfl, rfl, rfl⟩)

theorem coreS_tightenPreds (aid : String) :
    ∀ (l : List String) (st : List Activity), coreS st (tightenPreds aid st l) := by
  intro l
  induction l with
  | nil => intro st; exact coreS_refl st
  | cons pid rest ih =>
    intro st
    unfold tightenPreds
    split
    · exact ih st
    · next p hget =>
      exact coreS_trans
        (coreS_updateAct st pid
          (fun b => { b with
            latest_end := some (min (p.latest_end.getD 0)
              (((getAct st aid).bind (fun b => b.latest_start)).getD 0)),
            latest_start := some (min (p.latest_end.getD 0)
              (((getAct st aid).bind (fun b => b.latest_start)).getD 0) - b.duration) })
          (fun x => ⟨rfl, rfl, rfl, rfl, rfl⟩))
        (ih _)

theorem coreS_tightenLoop :
    ∀ (l : List String) (st : List Activity), coreS st (tightenLoop st l) := by
  intro l
  induction l with
  | nil => intro st; exact coreS_refl st
  | cons aid rest ih =>
    intro st
    unfold tightenLoop
    cases hget : getAct st aid with
    | none => exact ih st
    | some a => exact coreS_trans (coreS_tightenPreds aid a.predecessors st) (ih _)

theorem coreS_setSlack (st : List Activity) : coreS st (st.map setSlack) :=
  coreS_map st _ (fun x _ => ⟨rfl, rfl, rfl, rfl, rfl⟩)

theorem tightenPreds_getAct_notin (aid mid : String) :
    ∀ (l : List String) (st : List Activity), mid ∉ l →
      getAct (tightenPreds aid st l) mid = getAct st mid := by
  intro l
  induction l with
  | nil => intro st _; rfl
  | cons pid rest ih =>
    intro st hmid
    have hne : mid ≠ pid := fun e => hmid (e ▸ List.mem_cons_self _ _)
    have hrest : mid ∉ rest := fun e => hmid (List.mem_cons_of_mem _ e)
    unfold tightenPreds
    cases hget : getAct st pid with
    | none => exact ih st hrest
    | some p =>
      rw [ih _ hrest]
      exact getAct_update_other _ mid pid _ (fun x => rfl) hne

theorem tightenLoop_getAct_unch (mid : String) :
    ∀ (l : List String) (st : List Activity),
      (∀ b ∈ st, mid ∉ b.predecessors) →
      getAct (tightenLoop st l) mid = getAct st mid := by
  intro l
  induction l with
  | nil => intro st _; rfl
  | cons aid rest ih =>
    intro st hb
    unfold tightenLoop
    cases hget : getAct st aid with
    | none => exact ih st hb
    | some a =>
      have h1 : getAct (tightenPreds aid st a.predecessors) mid = getAct st mid :=
        tightenPreds_getAct_notin aid mid a.predecessors st (hb a (getAct_mem hget))
      have hb1 : ∀ b ∈ tightenPreds aid st a.predecessors, mid ∉ b.predecessors := by
        intro b hbmem
        rcases forall₂_mem_right (coreS_tightenPreds aid a.predecessors st) hbmem
          with ⟨b0, hb0, hcore⟩
        rw [hcore.2.1]
        exact hb b0 hb0
      rw [ih _ hb1, h1]

end Schedule

namespace Schedule

theorem allEnds_forall₂ :
    ∀ (st : List Activity) (L : List ℚ), allEnds st = some L →
      List.Forall₂ (fun (a : Activity) (e : ℚ) => a.end_ = some e) st L := by
  intro st
  induction st with
  | nil =>
    intro L h
    injection h with h
    subst h
    exact List.Forall₂.nil
  | cons a rest ih =>
    intro L h
    unfold allEnds at h
    cases he : a.end_ with
    | none => rw [he] at h; cases h
    | some e =>
      rw [he] at h
      cases hr : allEnds rest with
      | none => rw [hr] at h; cases h
      | some es =>
        rw [hr] at h
        injection h with h
        subst h
        exact List.Forall₂.cons he (ih es hr)

theorem foldl_max_bounds :
    ∀ (es : List ℚ) (e : ℚ), e ≤ es.foldl max e ∧ ∀ x ∈ es, x ≤ es.foldl max e := by
  intro es
  induction es with
  | nil => intro e; exact ⟨le_refl e, fun x hx => by cases hx⟩
  | cons y ys ih =>
    intro e
    constructor
    · exact le_trans (le_max_left e y) (ih (max e y)).1
    · intro x hx
      rcases List.mem_cons.mp hx with rfl | hx'
      · exact le_trans (le_max_right e x) (ih (max e x)).1
      · exact (ih (max e y)).2 x hx'

theorem foldl_max_mem :
    ∀ (es : List ℚ) (e : ℚ), es.foldl max e = e ∨ es.foldl max e ∈ es := by
  intro es
  induction es with
  | nil => intro e; exact Or.inl rfl
  | cons y ys ih =>
    intro e
    rcases ih (max e y) with h | h
    · rcases max_choice e y with he | hy
      · exact Or.inl (by rw [List.foldl_cons, h, he])
      · exact Or.inr (by rw [List.foldl_cons, h, hy]; exact List.mem_cons_self _ _)
    · exact Or.inr (List.mem_cons_of_mem _ (by rw [List.foldl_cons]; exact h))

/-- Anatomy of a successful `schedule_activities` run on a fresh acyclic
graph: the forward state `st1` satisfies the invariant with every activity
scheduled, the project end `pe` is well-defined, and the final state differs
from `st1` only in the latest-time bookkeeping fields. -/
theorem schedule_activities_sound (wd : WeatherData) (iv : ℚ) (fuel : Nat)
    (st st' : List Activity) (r : String → Nat) (hiv : 0 ≤ iv)
    (hnd : (st.map (fun a => a.id)).Nodup) (hacyc : RankOk r st)
    (hfresh : ∀ a ∈ st, a.start = none ∧ a.end_ = none)
    (hrun : schedule_activities wd iv fuel st = some st') :
    ∃ st1 pe,
      runForward wd iv fuel st (st.map (fun a => a.id)) = some st1 ∧
      projectEnd st1 = some pe ∧
      st' = (tightenAll (backwardInit pe st1)).map setSlack ∧
      monoS st st1 ∧ SchedInv st1 ∧ (st1.map (fun a => a.id)).Nodup ∧
      (∀ b ∈ st1, ∃ s, b.start = some s ∧ b.end_ = some (s + b.duration)) ∧
      coreS st1 st' := by
  unfold schedule_activities at hrun
  split at hrun
  · cases hrun
  · next st1 hfwd =>
    split at hrun
    · cases hrun
    · next pe hpe =>
      injection hrun with hrun
      rcases runForward_sound wd iv hiv r fuel (st.map (fun a => a.id)) st st1 hfwd hnd
        (SchedInv_of_fresh st hfresh) hacyc with ⟨hm1, hi1, hsch⟩
      have hnd1 : (st1.map (fun a => a.id)).Nodup := by
        rw [monoS_ids hm1]; exact hnd
      have hst1 : ∀ b ∈ st1, ∃ s, b.start = some s ∧ b.end_ = some (s + b.duration) := by
        intro b hb
        rcases forall₂_mem_right hm1 hb with ⟨b0, hb0, hm⟩
        have hids : b0.id ∈ st.map (fun a => a.id) := List.mem_map_of_mem _ hb0
        have hget0 : getAct st b0.id = some b0 := getAct_of_mem_nodup hnd hb0
        rcases hsch b0.id hids b0 hget0 with ⟨c, hc, hcs⟩
        have hgetb : getAct st1 b.id = some b := getAct_of_mem_nodup hnd1 hb
        rw [hm.1] at hgetb
        rw [hgetb] at hc
        injection hc with hc
        subst hc
        cases hs : b.start with
        | none => rw [hs] at hcs; simp at hcs
        | some sv =>
          rcases (hi1 b hb).2 sv hs with ⟨hend, _⟩
          exact ⟨sv, rfl, hend⟩
      have hcs : coreS st1 st' := by
        rw [← hrun]
        exact coreS_trans (coreS_backwardInit pe st1)
          (coreS_trans (coreS_tightenLoop _ _) (coreS_setSlack _))
      exact ⟨st1, pe, hfwd, hpe, hrun.symm, hm1, hi1, hnd1, hst1, hcs⟩

end Schedule

namespace Schedule

/-- C1 (amended) — in `schedule.py`, whose times are exact (float) hours with
no truncation, every successful `schedule_activities` run on a fresh acyclic
graph with unique ids leaves `end = start + duration` for every activity.
In the weather scheduler the same equation fails (see the counterexample):
there `start` and `end` are truncated to whole minutes separately from the
stored duration. -/
theorem c1_end_eq_start_plus_duration (wd : WeatherData) (iv : ℚ) (fuel : Nat)
    (st st' : List Activity) (r : String → Nat) (hiv : 0 ≤ iv)
    (hnd : (st.map (fun a => a.id)).Nodup) (hacyc : RankOk r st)
    (hfresh : ∀ a ∈ st, a.start = none ∧ a.end_ = none)
    (hrun : schedule_activities wd iv fuel st = some st') :
    ∀ a ∈ st', ∃ s, a.start = some s ∧ a.end_ = some (s + a.duration) := by
  rcases schedule_activities_sound wd iv fuel st st' r hiv hnd hacyc hfresh hrun with
    ⟨st1, pe, _, _, _, _, _, _, hst1, hcs⟩
  intro a ha
  rcases forall₂_mem_right hcs ha with ⟨b1, hb1, hcore⟩
  rcases hst1 b1 hb1 with ⟨s, hs, he⟩
  refine ⟨s, ?_, ?_⟩
  · rw [hcore.2.2.2.1, hs]
  · rw [hcore.2.2.2.2, he, hcore.2.2.1]

/-- C9 — after a successful free-running CPM run (forward then backward
pass) on a fresh acyclic graph with unique ids and positive durations, every
activity whose `end` attains the maximum end has `slack = 0` and is marked
critical. -/
theorem c9_latest_end_is_critical (wd : WeatherData) (iv : ℚ) (fuel : Nat)
    (st st' : List Activity) (r : String → Nat) (hiv : 0 ≤ iv)
    (hnd : (st.map (fun a => a.id)).Nodup) (hacyc : RankOk r st)
    (hfresh : ∀ a ∈ st, a.start = none ∧ a.end_ = none)
    (hdur : ∀ a ∈ st, 0 < a.duration)
    (hrun : schedule_activities wd iv fuel st = some st')
    (m : Activity) (hm : m ∈ st') (em : ℚ) (hme : m.end_ = some em)
    (hmax : ∀ b ∈ st', b.end_.getD 0 ≤ em) :
    m.slack = some 0 ∧ m.is_critical = true := by
  rcases schedule_activities_sound wd iv fuel st st' r hiv hnd hacyc hfresh hrun with
    ⟨st1, pe, hfwd, hpe, hst', hm1, hi1, hnd1, hst1, hcs⟩
  -- the st1 counterpart of m
  rcases forall₂_mem_right hcs hm with ⟨m1, hm1mem, hm1core⟩
  have hm1end : m1.end_ = some em := by rw [← hm1core.2.2.2.2]; exact hme
  have hm1id : m1.id = m.id := hm1core.1.symm
  -- m1 is scheduled: em = s + d
  rcases hst1 m1 hm1mem with ⟨s, hm1start, hm1end'⟩
  have hsd : s + m1.duration = em := by
    have := hm1end'.symm.trans hm1end
    exact Option.some.inj this
  -- durations in st1 are positive
  have hdur1 : ∀ c ∈ st1, 0 < c.duration := by
    intro c hc
    rcases forall₂_mem_right hm1 hc with ⟨c0, hc0, hmc⟩
    rw [hmc.2.2.1]
    exact hdur c0 hc0
  -- ends in st1 are bounded by em
  have hend1 : ∀ c ∈ st1, ∀ ec, c.end_ = some ec → ec ≤ em := by
    intro c hc ec hec
    rcases forall₂_mem_left hcs hc with ⟨c', hc', hcc⟩
    have := hmax c' hc'
    rw [hcc.2.2.2.2, hec] at this
    simpa using this
  -- nothing in the graph lists m's id as a predecessor
  have hgetm1 : getAct st1 m1.id = some m1 := getAct_of_mem_nodup hnd1 hm1mem
  have hnoref : ∀ c ∈ st1, m1.id ∉ c.predecessors := by
    intro c hc hmem
    rcases hst1 c hc with ⟨sc, hcs0, hce0⟩
    rcases (hi1 c hc).2 sc hcs0 with ⟨_, hpredsc⟩
    rcases hpredsc m1.id hmem m1 hgetm1 with ⟨pe', hpe', hpele⟩
    have hpe'em : pe' = em := by
      rw [hm1end] at hpe'
      injection hpe' with h
      exact h.symm
    have h1 : sc + c.duration ≤ em := hend1 c hc _ hce0
    have h2 : 0 < c.duration := hdur1 c hc
    rw [hpe'em] at hpele
    linarith
  -- the project end equals em
  have hpe_em : pe = em := by
    unfold projectEnd at hpe
    cases hAE : allEnds st1 with
    | none => rw [hAE] at hpe; cases hpe
    | some L =>
      rw [hAE] at hpe
      cases L with
      | nil => cases hpe
      | cons e es =>
        injection hpe with hpe
        have hfa := allEnds_forall₂ st1 (e :: es) hAE
        have hboundL : ∀ x ∈ e :: es, x ≤ em := by
          intro x hx
          rcases forall₂_mem_right hfa hx with ⟨c, hc, hcx⟩
          exact hend1 c hc x hcx
        have hemL : em ∈ e :: es := by
          rcases forall₂_mem_left hfa hm1mem with ⟨x, hx, hxe⟩
          rw [hm1end] at hxe
          injection hxe with h
          rw [h]
          exact hx
        have hle1 : pe ≤ em := by
          rcases foldl_max_mem es e with h | h
          · rw [← hpe, h]
            exact hboundL e (List.mem_cons_self _ _)
          · rw [← hpe]
            exact hboundL _ (List.mem_cons_of_mem _ h)
        have hle2 : em ≤ pe := by
          rcases List.mem_cons.mp hemL with rfl | h
          · rw [← hpe]
            exact (foldl_max_bounds es em).1
          · rw [← hpe]
            exact (foldl_max_bounds es e).2 em h
        linarith
  -- the tighten pass never touches m's entry
  have hnoref2 : ∀ b ∈ backwardInit pe st1, m1.id ∉ b.predecessors := by
    intro b hb
    rcases forall₂_mem_right (coreS_backwardInit pe st1) hb with ⟨b0, hb0, hbc⟩
    rw [hbc.2.1]
    exact hnoref b0 hb0
  have hget2 : getAct (backwardInit pe st1) m1.id
      = some { m1 with latest_end := some pe, latest_start := some (pe - m1.duration) } := by
    unfold backwardInit
    rw [getAct_map_core st1 m1.id
        (fun a => { a with latest_end := some pe, latest_start := some (pe - a.duration) })
        (fun x => rfl), hgetm1]
    rfl
  have hget3 : getAct (tightenAll (backwardInit pe st1)) m1.id
      = some { m1 with latest_end := some pe, latest_start := some (pe - m1.duration) } := by
    unfold tightenAll
    rw [tightenLoop_getAct_unch m1.id _ _ hnoref2]
    exact hget2
  -- identify m with the slack-passed version of that entry
  have hm' : m ∈ (tightenAll (backwardInit pe st1)).map setSlack := by
    rw [← hst']
    exact hm
  rcases List.mem_map.mp hm' with ⟨m3, hm3, hm3eq⟩
  have hnd3 : ((tightenAll (backwardInit pe st1)).map (fun a => a.id)).Nodup := by
    unfold tightenAll
    rw [coreS_ids (coreS_tightenLoop _ _), coreS_ids (coreS_backwardInit pe st1)]
    exact hnd1
  have hm3id : m3.id = m1.id := by
    have : m.id = m3.id := by rw [← hm3eq]; rfl
    rw [← this, ← hm1id]
  have hgetm3 : getAct (tightenAll (backwardInit pe st1)) m3.id = some m3 :=
    getAct_of_mem_nodup hnd3 hm3
  rw [hm3id, hget3] at hgetm3
  injection hgetm3 with hgetm3
  -- compute the slack
  have hslack : m.slack = some ((pe - m1.duration) - s) := by
    rw [← hm3eq, ← hgetm3]
    unfold setSlack
    simp [hm1start]
  have hzero : (pe - m1.duration) - s = 0 := by
    rw [hpe_em, ← hsd]
    ring
  constructor
  · rw [hslack, hzero]
  · rw [← hm3eq, ← hgetm3]
    unfold setSlack
    simp [hm1start, hzero]

end Schedule

namespace Schedule

/-! ## Concrete CPM run for the C1/C9 witnesses -/

def exA9 : Activity := { id := "A", predecessors := [], duration := 1 }

def exB9 : Activity := { id := "B", predecessors := ["A"], duration := 2 }

def exRank : String → Nat := fun x => if x = "B" then 1 else 0

theorem exRankOk : RankOk exRank [exA9, exB9] := by
  intro x p hp
  by_cases hxA : x = "A"
  · subst hxA
    have h0 : predsOf [exA9, exB9] "A" = [] := by decide
    rw [h0] at hp
    cases hp
  · by_cases hxB : x = "B"
    · subst hxB
      have h1 : predsOf [exA9, exB9] "B" = ["A"] := by decide
      rw [h1] at hp
      rcases List.mem_singleton.mp hp with rfl
      decide
    · have hnone : getAct [exA9, exB9] x = none := by
        unfold getAct
        rw [List.find?_eq_none]
        intro b hb
        rcases List.mem_cons.mp hb with rfl | hb'
        · intro hc
          have hA : "A" = x := by simpa [exA9] using hc
          exact hxA hA.symm
        · rcases List.mem_singleton.mp hb' with rfl
          intro hc
          have hB : "B" = x := by simpa [exB9] using hc
          exact hxB hB.symm
      unfold predsOf at hp
      rw [hnone] at hp
      cases hp

/-- The state produced by `schedule_activities` on the two-activity chain. -/
def exC1ResA : Activity :=
  { id := "A", predecessors := [], duration := 1, start := some 0, end_ := some 1,
    latest_start := some 0, latest_end := some 1, slack := some 0, is_critical := true }

def exC1ResB : Activity :=
  { id := "B", predecessors := ["A"], duration := 2, start := some 1, end_ := some 3,
    latest_start := some 1, latest_end := some 3, slack := some 0, is_critical := true }

theorem c1_witness :
    exC1ResA.start = some 0 ∧ exC1ResA.end_ = some (0 + exC1ResA.duration) := by
  have h := c1_end_eq_start_plus_duration [] 1 5 [exA9, exB9] [exC1ResA, exC1ResB] exRank
    (by decide) (by decide) exRankOk (by decide) (by decide) exC1ResA (by decide)
  rcases h with ⟨s, hs, he⟩
  have hs0 : s = 0 := by
    have h0 : exC1ResA.start = some 0 := by decide
    rw [h0] at hs
    exact (Option.some.inj hs).symm
  subst hs0
  exact ⟨hs, he⟩

theorem c9_witness :
    exC1ResB.slack = some 0 ∧ exC1ResB.is_critical = true := by
  refine c9_latest_end_is_critical [] 1 5 [exA9, exB9] [exC1ResA, exC1ResB] exRank
    ?_ ?_ exRankOk ?_ ?_ ?_ exC1ResB ?_ 3 ?_ ?_ <;> decide

end Schedule
